import Mathlib

/-!
Shallow embedding of `a3down.py` (ArmA3-ModDownloader) and proofs about its
specification claims.

The Python source is a single script; every definition below is translated
from a concrete function of that script (the source line numbers are given in
the doc comments).  Machine-level concerns (actual filesystem, network,
subprocesses) are modelled by explicit state values and environment records;
the script is single-threaded, so sequential state passing is faithful.
-/

/- ===================== generic helpers (Python semantics) ===================== -/

/-- Association-list lookup, the read side of a Python `dict` in insertion
order.  Returns the value of the first pair whose key matches. -/
def alookup {β : Type} (l : List (String × β)) (k : String) : Option β :=
  (l.find? (fun p => decide (p.1 = k))).map (·.2)

/-- Python `d[k] = v` on a `dict` kept as an insertion-ordered list: overwrite
the value in place when the key is present, otherwise append a fresh pair. -/
def dictInsert {β : Type} (l : List (String × β)) (k : String) (v : β) :
    List (String × β) :=
  if l.any (fun p => decide (p.1 = k)) then
    l.map (fun p => if p.1 = k then (k, v) else p)
  else l ++ [(k, v)]

/-- Python `str.strip()`: remove leading and trailing whitespace. -/
def pyStrip (s : String) : String :=
  String.mk (((s.data.dropWhile Char.isWhitespace).reverse.dropWhile
    Char.isWhitespace).reverse)

/- ===================== mod-name normalization (a3down.py 250-258) ===================== -/

/-- The deletion set of `str.maketrans("", "", special_characters)` at
a3down.py line 252: the literal characters of the Python string
`"!#$%^&*()[]{};:,./<>?\\|`~='+-"` (backtick and apostrophe written by code
point). -/
def special_characters : List Char :=
  ['!', '#', '$', '%', '^', '&', '*', '(', ')', '[', ']', '\x7b', '\x7d',
   ';', ':', ',', '.', '/', '<', '>', '?', '\\', '|', Char.ofNat 96, '~', '=',
   Char.ofNat 39, '+', '-']

/-- `modname.translate(str.maketrans("", "", special_characters))`:
delete every character of the fixed set. -/
def stripSpecials (cs : List Char) : List Char :=
  cs.filter (fun c => !special_characters.contains c)

/-- `.replace(" ", "_")`: every space becomes an underscore. -/
def spaceToUnderscore (cs : List Char) : List Char :=
  cs.map (fun c => if c = ' ' then '_' else c)

/-- Python `.replace("_" * 2, "_")` (a3down.py line 254): a single
left-to-right pass replacing each non-overlapping occurrence of `"__"` by
`"_"`; the emitted underscore is not rescanned. -/
def replaceDoubleUnderscore : List Char → List Char
  | '_' :: '_' :: rest => '_' :: replaceDoubleUnderscore rest
  | c :: rest => c :: replaceDoubleUnderscore rest
  | [] => []

/-- The full normalization pipeline of a3down.py lines 251-255, applied to a
display name (which arrives already `.strip()`-ed at line 251):
delete special characters, lowercase, spaces to underscores, one
`"__"`-to-`"_"` pass, then the `"@"` sigil. -/
def normalize_modname (displayName : String) : String :=
  let s := pyStrip displayName
  let cs := stripSpecials s.data
  let cs := cs.map Char.toLower
  let cs := spaceToUnderscore cs
  let cs := replaceDoubleUnderscore cs
  "@" ++ String.mk cs

/-- Helper for the full collapse: the flag records whether we are inside an
underscore run whose first underscore has already been emitted. -/
def collapseRunsAux : Bool → List Char → List Char
  | _, [] => []
  | inRun, c :: rest =>
    if c = '_' then
      if inRun then collapseRunsAux true rest
      else '_' :: collapseRunsAux true rest
    else c :: collapseRunsAux false rest

/-- Modelled from the spec words of C9: "repeated underscores collapsed"
read as every maximal run of underscores becoming a single underscore. -/
def collapseUnderscoreRuns (cs : List Char) : List Char :=
  collapseRunsAux false cs

/-- The claim-C9 reading of the whole pipeline: same stages as the code but
with runs of underscores fully collapsed. -/
def spec_normalize_full (displayName : String) : String :=
  let s := pyStrip displayName
  let cs := stripSpecials s.data
  let cs := cs.map Char.toLower
  let cs := spaceToUnderscore cs
  let cs := collapseUnderscoreRuns cs
  "@" ++ String.mk cs

/-- A generic single pass replacing each non-overlapping occurrence of the
two-character pattern `a b` by `c`, scanning left to right; used to state the
amended C9 independently of `replaceDoubleUnderscore`. -/
def replacePairOnce (a b c : Char) : List Char → List Char
  | x :: y :: rest =>
    if x = a ∧ y = b then c :: replacePairOnce a b c rest
    else x :: replacePairOnce a b c (y :: rest)
  | l => l

/-- Amended C9 pipeline: identical to the spec wording except that the
underscore collapse is the single non-overlapping left-to-right pass that
Python's `str.replace("__", "_")` performs. -/
def spec_normalize_amended (displayName : String) : String :=
  let s := pyStrip displayName
  let cs := stripSpecials s.data
  let cs := cs.map Char.toLower
  let cs := spaceToUnderscore cs
  let cs := replacePairOnce '_' '_' '_' cs
  "@" ++ String.mk cs

/- ===================== preset parser `mods` (a3down.py 232-261) ===================== -/

/-- One `<tr data-type="ModContainer">` row of the exported preset: the
stripped display-name text and the `href` of its workshop link. -/
structure ModContainer where
  displayName : String
  link : String
deriving DecidableEq

/-- Python `str.split(sep)` for a one-character separator, over the
character list. -/
def splitOnChar (sep : Char) : List Char → List (List Char)
  | [] => [[]]
  | c :: rest =>
    let r := splitOnChar sep rest
    if c = sep then [] :: r
    else
      match r with
      | [] => [[c]]
      | h :: t => (c :: h) :: t

/-- `mod_id = link.split("=")[-1]` (a3down.py line 257). -/
def mod_id_of (link : String) : String :=
  String.mk ((splitOnChar '=' link.data).getLastD [])

/-- One iteration of the parsing loop (a3down.py lines 250-258): append the
normalized name to `A3Modnames` and assign `A3Modlist[name] = mod_id`. -/
def modsStep (acc : List (String × String) × List String) (mc : ModContainer) :
    List (String × String) × List String :=
  let name := normalize_modname mc.displayName
  (dictInsert acc.1 name (mod_id_of mc.link), acc.2 ++ [name])

/-- `mods(html_path)` (a3down.py 232-261) on an already-extracted container
list: returns `(A3Modlist, A3Modnames)`, both cleared before the loop. -/
def mods (containers : List ModContainer) : List (String × String) × List String :=
  containers.foldl modsStep ([], [])

/-- The id of the last preset row normalizing to `n`, if any: the value the
registry ends up mapping `n` to. -/
def lastIdFor (containers : List ModContainer) (n : String) : Option String :=
  (containers.reverse.find? (fun mc => decide (normalize_modname mc.displayName = n))).map
    (fun mc => mod_id_of mc.link)

/- ===================== launch params (a3down.py 446-463) ===================== -/

/-- `str(Path(...))`: join path components with the platform separator. -/
def renderPath (isWindows : Bool) (comps : List String) : String :=
  String.intercalate (if isWindows then "\\" else "/") comps

/-- The separator of a3down.py line 455: `";"` on Windows, `"\;"` otherwise. -/
def sepFor (isWindows : Bool) : String := if isWindows then ";" else "\\;"

/-- The per-name lines of a3down.py line 454/456:
`f"{str(rel_path / mod_name)}{sep}"` for each entry of `A3Modnames`. -/
def launchLines (isWindows : Bool) (rel : List String) (names : List String) :
    List String :=
  names.map (fun n => renderPath isWindows (rel ++ [n]) ++ sepFor isWindows)

/-- `PurePath.relative_to`: defined exactly when `base`'s components are a
leading run of `p`'s components; otherwise Python raises `ValueError`. -/
def relativeTo (p base : List String) : Option (List String) :=
  if base.isPrefixOf p then some (p.drop base.length) else none

/-- Observable outcome of one `print_launch_params()` call. -/
inductive LaunchResult where
  /-- `A3Modnames` empty: `logging.error(...)` then `return`. -/
  | loggedEmpty
  /-- an exception escaped the function (the uncaught `ValueError` of
  `Path(MODS_DIR).relative_to(SERVER_DIR)` at line 453). -/
  | raised
  /-- `ModsParam.txt` written with the given content. -/
  | wrote (content : String)
  /-- the write failed; caught at line 462 and logged, no exception escapes. -/
  | writeErrorLogged
deriving DecidableEq

/-- `print_launch_params()` (a3down.py 446-463).  `names` is the global
`A3Modnames`; `modsDir`/`serverDir` are the configured paths as component
lists; `writeOk` tells whether the `open`/`write` of `ModsParam.txt`
succeeds (its failure is caught by the `except` at line 462).  Note the
`relative_to` call at line 453 sits outside that `try` block. -/
def print_launch_params (names : List String) (modsDir serverDir : List String)
    (isWindows : Bool) (writeOk : Bool) : LaunchResult :=
  if names.isEmpty then .loggedEmpty
  else
    match relativeTo modsDir serverDir with
    | none => .raised
    | some rel =>
      let params := String.intercalate "\n" (launchLines isWindows rel names)
      if writeOk then .wrote params else .writeErrorLogged

/- ===================== staleness oracle (a3down.py 179-196) ===================== -/

/-- Outcome of `requests.get(...).text` at a3down.py line 185: either the
response body, or a `requests.exceptions.RequestException` (which covers
connection errors and timeouts). -/
inductive FetchResult where
  | ok (body : String)
  | requestError (msg : String)
deriving DecidableEq

/-- Suffix of `hay` right after the first occurrence of `needle`, if any. -/
def dropThrough (needle : List Char) : List Char → Option (List Char)
  | [] => if needle.isPrefixOf ([] : List Char) then some [] else none
  | c :: t =>
    if needle.isPrefixOf (c :: t) then some ((c :: t).drop needle.length)
    else dropThrough needle t

/-- Numeric value of a digit run (the regex group is `\d+`, so `int(...)`
never fails). -/
def digitsVal (ds : List Char) : Nat :=
  ds.foldl (fun n c => n * 10 + (c.toNat - 48)) 0

/-- Scan for the first position where `<p id="` followed by one or more
digits and `">` matches, returning the digit value.  Together with
`dropThrough` below this implements `UPDATE_PATTERN.search` (a3down.py line
84): the lazy `.*?` with `re.DOTALL` takes the first such tag after the
first `workshopAnnouncement` occurrence. -/
def scanPTag : List Char → Option Nat
  | [] => none
  | c :: t =>
    if "<p id=\"".data.isPrefixOf (c :: t) then
      let after := (c :: t).drop "<p id=\"".data.length
      let ds := after.takeWhile Char.isDigit
      if !ds.isEmpty && "\">".data.isPrefixOf (after.drop ds.length) then
        some (digitsVal ds)
      else scanPTag t
    else scanPTag t

/-- `UPDATE_PATTERN.search(response)` followed by `int(match.group(1))`:
the extracted announcement timestamp, or `none` when the pattern does not
match. -/
def searchUpdatePattern (body : String) : Option Nat :=
  match dropThrough "workshopAnnouncement".data body.data with
  | none => none
  | some rest => scanPTag rest

/-- `mod_needs_update(mod_id, path)` (a3down.py 179-196).  `ctime` is
`path.stat().st_ctime`, the local install's creation timestamp; comparing
the two `datetime.fromtimestamp` values is comparing the raw timestamps.
A `RequestException` is caught and logged (line 194), a non-matching body is
logged (line 192); both return `False`. -/
def mod_needs_update (fetch : FetchResult) (ctime : Nat) : Bool :=
  match fetch with
  | .requestError _ => false
  | .ok body =>
    match searchUpdatePattern body with
    | some updatedAt => decide (ctime ≤ updatedAt)
    | none => false

/- ===================== update_mods (a3down.py 287-334) ===================== -/

/-- Environment of one registry entry during `update_mods`:
`initiallyPresent` is `path.is_dir()` before the loop body;
`needsUpdate`/`checkBroken` are the results of `mod_needs_update`/`mod_check`;
`appearsAfter = some j` means the workshop directory (re)appears on disk once
the external fetch tool has been invoked `j` times for this id, `none` means
it never appears. -/
structure ModInput where
  id : String
  initiallyPresent : Bool
  needsUpdate : Bool
  checkBroken : Bool
  appearsAfter : Option Nat
deriving DecidableEq

/-- Whether the directory is on disk after `t` fetch invocations. -/
def presentAfter : Option Nat → Nat → Bool
  | some j, t => decide (j ≤ t)
  | none, _ => false

/-- The retry loop of a3down.py lines 314-325:
`while (not path.is_dir()) and tries < MAX_TRIES: tries += 1; <invoke>`.
Returns the final value of `tries`.  `fuel` bounds the recursion; `M` fuel
is enough since each iteration increments `tries` toward the `tries < M`
guard. -/
def runLoopF (app : Option Nat) (M : Nat) : Nat → Nat → Nat
  | 0, tries => tries
  | fuel + 1, tries =>
    if presentAfter app tries = false ∧ tries < M then runLoopF app M fuel (tries + 1)
    else tries

/-- The skip test of a3down.py lines 301-309: an entry is skipped ("No update
required ... SKIPPING") when its directory exists and neither the oracle nor
the local check fires; otherwise an existing directory is `shutil.rmtree`-d
and the entry must be fetched. -/
def modSkipped (m : ModInput) : Bool :=
  m.initiallyPresent && !(m.needsUpdate || m.checkBroken)

/-- The FailureLedger file content: `none` when `failed_mods.txt` is absent. -/
def appendLedger : Option (List String) → String → Option (List String)
  | none, i => some [i]
  | some l, i => some (l ++ [i])

/-- `FAILED_MODS_FILE.unlink()` at a3down.py lines 293-294. -/
def deleteFile (_file : Option (List String)) : Option (List String) := none

/-- One iteration of the `for mod_name, mod_id in A3Modlist.items()` loop of
`update_mods` (a3down.py 297-330), restricted to its ledger effect: a
skipped entry does nothing; otherwise the fetch loop runs and, when
`tries >= MAX_TRIES` (line 327), the id is appended to the ledger file. -/
def processMod (M : Nat) (file : Option (List String)) (m : ModInput) :
    Option (List String) :=
  if modSkipped m then file
  else if M ≤ runLoopF m.appearsAfter M M 0 then appendLedger file m.id
  else file

/-- `update_mods()` (a3down.py 287-334), projected onto the FailureLedger
file: the file is deleted first (lines 293-294), then every registry entry is
processed in order. -/
def update_mods (M : Nat) (ms : List ModInput) (file0 : Option (List String)) :
    Option (List String) :=
  ms.foldl (processMod M) (deleteFile file0)

/-- Characterization used by the amended C1: an id is written exactly when
the entry is not skipped and its directory is absent until at least the
`MAX_TRIES`-th invocation (it may well appear on that final invocation). -/
def modWritesLedger (M : Nat) (m : ModInput) : Bool :=
  !modSkipped m &&
    (match m.appearsAfter with
     | none => true
     | some j => decide (M ≤ j))

/- ===================== retry_failed_mods (a3down.py 353-380) ===================== -/

/-- The ids read from `failed_mods.txt` (a3down.py lines 358-359):
`[l.strip() for l in f if l.strip()]`. -/
def parseLedger (content : String) : List String :=
  (((splitOnChar '\n' content.data).map (fun l => pyStrip (String.mk l)))).filter
    (fun l => decide (l ≠ ""))

/-- Environment of a retry pass: the raw ledger file (absent = `none`) and,
per id, after how many fetch invocations its directory becomes non-empty
(an id missing from `schedule` never succeeds). -/
structure RetryEnv where
  ledgerFile : Option String
  schedule : List (String × Nat)
deriving DecidableEq

def lookupSched (env : RetryEnv) (i : String) : Option Nat :=
  alookup env.schedule i

/-- The unbounded `while True` loop of a3down.py lines 364-378 for one id:
break as soon as the directory is non-empty, otherwise invoke the tool and
try again.  `fuel` makes divergence observable: `none` means the loop is
still running after `fuel` invocations. -/
def retryIdLoop (sched : Option Nat) : Nat → Nat → Option Nat
  | fuel, t =>
    if presentAfter sched t then some t
    else
      match fuel with
      | 0 => none
      | f + 1 => retryIdLoop sched f (t + 1)

/-- The `for mod_id in failed_ids` loop (a3down.py 360-378): each id is
retried to completion before the next starts; the whole pass has terminated
(at this fuel) only when every id has. -/
def retryAll (env : RetryEnv) : List String → Nat → Option (List (String × Nat))
  | [], _ => some []
  | i :: rest, fuel =>
    match retryIdLoop (lookupSched env i) fuel 0 with
    | none => none
    | some t => (retryAll env rest fuel).map (fun l => (i, t) :: l)

/-- Normal-termination outcome of `retry_failed_mods()`. -/
inductive RetryResult where
  /-- early return at a3down.py lines 354-356: no ledger file present. -/
  | noFile
  /-- the whole list completed; per id, the number of invocations it took. -/
  | completed (attempts : List (String × Nat))
deriving DecidableEq

/-- `retry_failed_mods()` (a3down.py 353-380).  The result pairs the outcome
with the ledger file state after the call (`FAILED_MODS_FILE.unlink()` runs
at line 380 only after the whole list completes); `none` as overall result
means the pass has not terminated within `fuel` invocations per id. -/
def retry_failed_mods (env : RetryEnv) (fuel : Nat) :
    Option (RetryResult × Option String) :=
  match env.ledgerFile with
  | none => some (.noFile, none)
  | some content =>
    match retryAll env (parseLedger content) fuel with
    | none => none
    | some atts => some (.completed atts, none)

/- ===================== create_mod_symlinks (a3down.py 418-443) ===================== -/

/-- Environment of a provisioning pass: the registry items, the set of
workshop ids whose directory exists, whether link creation (native symlink,
or the junction fallback on Windows) can succeed at all on this system, and
the other paths that exist on disk (possible targets of pre-existing
links besides the workshop directories). -/
structure LinkEnv where
  modlist : List (String × String)
  realDirs : List String
  canLink : Bool
  extraLive : List String
deriving DecidableEq

/-- State/trace of one `create_mod_symlinks()` run: the entries present
under `MODS_DIR` as (name, target) pairs, the links created by this run
(the filesystem mutations), the "does not exist" log entries, and the
creation-failure log entries (a3down.py line 437, or the failing junction
attempt at line 434). -/
structure LinkRun where
  links : List (String × String)
  createdLinks : List (String × String)
  missingLogs : List String
  failLogs : List String
deriving DecidableEq

/-- `WORKSHOP_DIR / mod_id` as a target path value. -/
def linkTarget (id : String) : String := "workshop/" ++ id

/-- Whether a link target still resolves: it is a workshop directory of a
present id, or one of the other existing paths of the environment. -/
def targetAlive (env : LinkEnv) (t : String) : Bool :=
  env.realDirs.any (fun i => decide (t = linkTarget i)) ||
    env.extraLive.any (fun q => decide (q = t))

/-- One iteration of the loop at a3down.py lines 421-440.
`link_path.exists()` (line 424) FOLLOWS symlinks: it is true only when an
entry is present at the path AND its target resolves.  So: content dir
present and no resolving entry → attempt creation; if an entry is
nevertheless present (a dangling link), `os.symlink` raises
`FileExistsError` (and the Windows `mklink` fallback also fails against the
existing path), which is logged with nothing created — the dangling link is
neither repaired nor removed; with the path truly empty the link is created
when some mechanism works (`canLink`), else the failure is logged.  Content
dir missing → "does not exist" log.  Otherwise (resolving entry) skip
silently. -/
def linkStep (env : LinkEnv) (st : LinkRun) (nm : String × String) : LinkRun :=
  let realIsDir := env.realDirs.any (fun i => decide (i = nm.2))
  let entry := alookup st.links nm.1
  let linkExists := match entry with
    | some t => targetAlive env t
    | none => false
  if realIsDir && !linkExists then
    if entry.isSome then
      { st with failLogs := st.failLogs ++ [nm.1] }
    else if env.canLink then
      { st with links := st.links ++ [(nm.1, linkTarget nm.2)],
                createdLinks := st.createdLinks ++ [(nm.1, linkTarget nm.2)] }
    else
      { st with failLogs := st.failLogs ++ [nm.1] }
  else if !realIsDir then
    { st with missingLogs := st.missingLogs ++ [nm.1] }
  else st

/-- `create_mod_symlinks()` (a3down.py 418-443) started on the entries
currently present under `MODS_DIR`. -/
def create_mod_symlinks (env : LinkEnv) (links0 : List (String × String)) : LinkRun :=
  env.modlist.foldl (linkStep env)
    { links := links0, createdLinks := [], missingLogs := [], failLogs := [] }

/- ===================== copy_keys (a3down.py 466-533) ===================== -/

/-- A directory entry in `KEYS_DIR`: a symlink with its target path, or a
plain file. -/
inductive FsEntry where
  | link (target : String)
  | file
deriving DecidableEq

/-- Environment of a `copy_keys()` run: `names` is the global `A3Modnames`
in registry insertion order; `keyFolders` maps a mod name to the filenames
listed by `os.listdir` of its `keys`/`key` subdirectory (absent when the mod
directory or both candidate subdirectories are missing, a3down.py lines
483-495); `extraExists` are the further paths that exist on disk (possible
targets of pre-existing links); `isWindows` is the `os_type() == "Windows"`
test at line 528; `symlinkFails m k` tells whether `key_dest.symlink_to`
raises `OSError`/`NotImplementedError` for mod `m`'s key `k` (line 526), and
`copyFails m k` whether the `shutil.copy2` fallback raises `OSError`
(line 530). -/
structure KeysEnv where
  names : List String
  keyFolders : List (String × List String)
  extraExists : List String
  isWindows : Bool
  symlinkFails : String → String → Bool
  copyFails : String → String → Bool

/-- `real_key_path = key_dir / key` (a3down.py line 498) as a path value;
the mod's key directory is determined by the mod name. -/
def realKeyPath (m k : String) : String := m ++ "/" ++ k

/-- Which target paths exist on disk: all source key files of the parsed
mods, plus the extra paths of the environment.  `copy_keys` never deletes a
source key file, so this is static across the run. -/
def pathExists (env : KeysEnv) (p : String) : Bool :=
  env.extraExists.any (fun q => decide (q = p)) ||
    env.keyFolders.any (fun mk => mk.2.any (fun k => decide (realKeyPath mk.1 k = p)))

/-- `key_file.is_symlink() and not key_file.exists()` (a3down.py line 473):
a broken symlink. -/
def isDangling (env : KeysEnv) (e : String × FsEntry) : Bool :=
  match e.2 with
  | .link t => !pathExists env t
  | .file => false

/-- The check at a3down.py lines 508-514: the existing destination entry is a
symlink whose target `os.path.samefile`-resolves to the source key file. -/
def isCorrectLink (env : KeysEnv) (e : FsEntry) (src : String) : Bool :=
  match e with
  | .link t => pathExists env t && decide (t = src)
  | .file => false

/-- State and event trace of a `copy_keys()` run. `keysDir` is the content
of `KEYS_DIR`; `claimed` is the `existing_keys` dict (key filename to owning
mod, in claim order); the remaining fields record the run's observable
actions: phase-1 broken-link removals, by-name removals of stale/incorrect
destination entries, link creations, acceptances of already-correct links,
and duplicate-claim log entries. -/
structure KState where
  keysDir : List (String × FsEntry)
  claimed : List (String × String)
  removedBroken : List (String × FsEntry)
  removedStale : List (String × FsEntry)
  createdLinks : List (String × String)
  createdCopies : List (String × String)
  claimedNoEntry : List (String × String)
  createFailLogs : List (String × String)
  acceptedLinks : List (String × String)
  duplicateLogs : List (String × String)
deriving DecidableEq

/-- Phase 1 of `copy_keys()` (a3down.py lines 471-475) applied to the initial
`KEYS_DIR` listing: every broken symlink is unlinked, everything else kept. -/
def initKState (env : KeysEnv) (d0 : List (String × FsEntry)) : KState :=
  { keysDir := d0.filter (fun e => !isDangling env e),
    claimed := [],
    removedBroken := d0.filter (isDangling env),
    removedStale := [], createdLinks := [], createdCopies := [],
    claimedNoEntry := [], createFailLogs := [], acceptedLinks := [],
    duplicateLogs := [] }

/-- The creation attempt of a3down.py lines 522-533, reached with the
destination absent: `key_dest.symlink_to(real_key_path)` in an inner `try`;
on `OSError`/`NotImplementedError` the Windows path falls back to
`shutil.copy2` while on other systems the exception is swallowed with
NOTHING created — yet `existing_keys[key] = mod_name` still runs, claiming
the filename.  A failing `copy2` raises past that assignment to the outer
`except OSError` (line 532), which only logs: the filename stays unclaimed
and the destination stays empty. -/
def createKey (env : KeysEnv) (m : String) (st : KState) (key : String) : KState :=
  let src := realKeyPath m key
  if env.symlinkFails m key then
    if env.isWindows then
      if env.copyFails m key then
        { st with createFailLogs := st.createFailLogs ++ [(key, m)] }
      else
        { st with keysDir := st.keysDir ++ [(key, .file)],
                  claimed := st.claimed ++ [(key, m)],
                  createdCopies := st.createdCopies ++ [(key, m)] }
    else
      { st with claimed := st.claimed ++ [(key, m)],
                claimedNoEntry := st.claimedNoEntry ++ [(key, m)] }
  else
    { st with keysDir := st.keysDir ++ [(key, .link src)],
              claimed := st.claimed ++ [(key, m)],
              createdLinks := st.createdLinks ++ [(key, m)] }

/-- The body of `for key in os.listdir(key_dir)` (a3down.py lines 497-533)
for one key filename `key` of mod `m`:
duplicate claims are logged and skipped (lines 501-504); an existing correct
symlink is accepted and claimed (lines 507-514); an existing incorrect
symlink or plain file is unlinked (line 520) and then the creation attempt
of `createKey` runs (lines 522-533, including its failure paths); an absent
destination goes straight to the creation attempt.  Destination existence
(`key_dest.exists()`) coincides with presence in `keysDir` because phase 1
removed every broken link and links created here target existing source
files. -/
def processKey (env : KeysEnv) (m : String) (st : KState) (key : String) : KState :=
  if (alookup st.claimed key).isSome then
    { st with duplicateLogs := st.duplicateLogs ++ [(key, m)] }
  else
    let src := realKeyPath m key
    match alookup st.keysDir key with
    | none => createKey env m st key
    | some e =>
      if isCorrectLink env e src then
        { st with claimed := st.claimed ++ [(key, m)],
                  acceptedLinks := st.acceptedLinks ++ [(key, m)] }
      else
        createKey env m
          { st with
              keysDir := st.keysDir.filter (fun p => !decide (p.1 = key)),
              removedStale := st.removedStale ++ [(key, e)] } key

/-- One iteration of `for mod_name in A3Modnames` (a3down.py lines 480-533):
missing mod directory or missing `keys`/`key` subdirectory is logged and
skipped, otherwise every listed key file is processed in order.  (The guard
`if mod_name not in A3Modlist.items()` at line 481 compares a string against
(name, id) tuples and is therefore always true.) -/
def processModKeys (env : KeysEnv) (st : KState) (m : String) : KState :=
  match alookup env.keyFolders m with
  | none => st
  | some ks => ks.foldl (processKey env m) st

/-- `copy_keys()` (a3down.py 466-533) on the given initial `KEYS_DIR`
listing. -/
def copy_keys (env : KeysEnv) (d0 : List (String × FsEntry)) : KState :=
  env.names.foldl (processModKeys env) (initKState env d0)

/-- The (mod, key filename) contributions of the run in processing order:
one pair per key file listed for each registered mod name. -/
def contributions (env : KeysEnv) : List (String × String) :=
  env.names.flatMap (fun m =>
    match alookup env.keyFolders m with
    | none => []
    | some ks => ks.map (fun k => (m, k)))

/-- The first mod (in registry insertion order) contributing key filename
`k`, if any: the winner of the first-writer-wins rule. -/
def claimedBy (P : List (String × String)) (k : String) : Option String :=
  (P.find? (fun mk => decide (mk.2 = k))).map (·.1)

/-- Induction invariant of the `copy_keys` fold in the regime where every
attempted `symlink_to` succeeds (`symlinkFails` everywhere false), relating
the state after processing the contribution prefix `P` (pairs
(mod, key filename) in processing order) to the phase-1 state: the `existing_keys` dict equals the
first-contributor map of `P`; each contributed filename has exactly one
claim event, by its first contributor; duplicate logs count the later
contributions; `KEYS_DIR` filenames stay distinct; entries at unclaimed
names are untouched since phase 1; each claimed name holds a link to its
first contributor's source key; every by-name removal was an incorrect
entry at a claimed destination; the phase-1 removals are exactly the
initial broken links. -/
def KInv (env : KeysEnv) (d0 : List (String × FsEntry))
    (P : List (String × String)) (st : KState) : Prop :=
  (∀ k, alookup st.claimed k = claimedBy P k) ∧
  (∀ k, (st.createdLinks ++ st.acceptedLinks).filter (fun e => decide (e.1 = k)) =
    (match claimedBy P k with
     | none => []
     | some m => [(k, m)])) ∧
  (∀ k, (st.duplicateLogs.filter (fun e => decide (e.1 = k))).length =
    (P.filter (fun mk => decide (mk.2 = k))).length -
      (if (claimedBy P k).isSome then 1 else 0)) ∧
  ((st.keysDir.map (fun e => e.1)).Nodup) ∧
  (∀ k, claimedBy P k = none →
    alookup st.keysDir k = alookup (initKState env d0).keysDir k) ∧
  (∀ k m, claimedBy P k = some m →
    alookup st.keysDir k = some (.link (realKeyPath m k))) ∧
  (∀ ke ∈ st.removedStale, ∃ m, (m, ke.1) ∈ P ∧ claimedBy P ke.1 = some m ∧
    isCorrectLink env ke.2 (realKeyPath m ke.1) = false) ∧
  (st.removedBroken = d0.filter (isDangling env))

/-- Frame-only invariant of the `copy_keys` fold (used by C3), valid for
EVERY combination of creation outcomes: `KEYS_DIR` filenames stay distinct;
entries at filenames not among the processed contributions are untouched
since phase 1; every by-name removal was an incorrect entry at a
contributed filename; the phase-1 removals are exactly the initial broken
links. -/
def KFrameInv (env : KeysEnv) (d0 : List (String × FsEntry))
    (P : List (String × String)) (st : KState) : Prop :=
  ((st.keysDir.map (fun e => e.1)).Nodup) ∧
  (∀ k, k ∉ P.map (fun mk => mk.2) →
    alookup st.keysDir k = alookup (initKState env d0).keysDir k) ∧
  (∀ ke ∈ st.removedStale, ∃ m, (m, ke.1) ∈ P ∧
    isCorrectLink env ke.2 (realKeyPath m ke.1) = false) ∧
  (st.removedBroken = d0.filter (isDangling env))

/-- Left-biased choice on options (used to state lookup/fold lemmas). -/
def optOr {α : Type} : Option α → Option α → Option α
  | some x, _ => some x
  | none, b => b

/- ===================== basic lemmas ===================== -/

theorem alookup_nil {β : Type} (k : String) : alookup ([] : List (String × β)) k = none := rfl

theorem alookup_cons {β : Type} (p : String × β) (l : List (String × β)) (k : String) :
    alookup (p :: l) k = if p.1 = k then some p.2 else alookup l k := by
  by_cases h : p.1 = k <;> simp [alookup, List.find?_cons, h]

theorem alookup_append {β : Type} (l1 l2 : List (String × β)) (k : String) :
    alookup (l1 ++ l2) k = optOr (alookup l1 k) (alookup l2 k) := by
  induction l1 with
  | nil => simp [alookup_nil, optOr]
  | cons p t ih =>
    rw [List.cons_append, alookup_cons, alookup_cons]
    by_cases h : p.1 = k <;> simp [h, ih, optOr]

theorem alookup_eq_none_iff {β : Type} (l : List (String × β)) (k : String) :
    alookup l k = none ↔ ∀ p ∈ l, p.1 ≠ k := by
  induction l with
  | nil => simp [alookup_nil]
  | cons p t ih =>
    rw [alookup_cons]
    by_cases h : p.1 = k
    · simp [h]
    · simp [h, ih]

theorem alookup_isSome_iff {β : Type} (l : List (String × β)) (k : String) :
    (alookup l k).isSome ↔ ∃ p ∈ l, p.1 = k := by
  constructor
  · intro h
    by_contra hc
    push_neg at hc
    have hn : alookup l k = none := (alookup_eq_none_iff l k).mpr hc
    simp [hn] at h
  · rintro ⟨p, hp, hk⟩
    cases ho : alookup l k with
    | some v => simp
    | none => exact absurd hk ((alookup_eq_none_iff l k).mp ho p hp)

theorem alookup_map_overwrite {β : Type} (l : List (String × β)) (k : String) (v : β)
    (k' : String) :
    alookup (l.map (fun p => if p.1 = k then (k, v) else p)) k' =
      if k' = k then (if l.any (fun p => decide (p.1 = k)) then some v else none)
      else alookup l k' := by
  induction l with
  | nil => by_cases h : k' = k <;> simp [alookup_nil, h]
  | cons p t ih =>
    rw [List.map_cons, alookup_cons]
    by_cases hp : p.1 = k
    · by_cases hk : k' = k
      · subst hk; simp [hp, alookup_cons, ih]
      · simp [hp, alookup_cons, Ne.symm hk, ih, hk]
    · by_cases hk : k' = k
      · subst hk
        have hd : (decide (p.1 = k') : Bool) = false := by simp [hp]
        simp only [hp, alookup_cons, ih, if_neg, not_false_iff, if_pos, List.any_cons]
        simp only [hd, decide_False, Bool.false_or]
      · simp only [hp, if_neg, not_false_iff, alookup_cons, ih, hk]

theorem alookup_dictInsert {β : Type} (l : List (String × β)) (k : String) (v : β)
    (k' : String) :
    alookup (dictInsert l k v) k' = if k' = k then some v else alookup l k' := by
  unfold dictInsert
  by_cases ha : l.any (fun p => decide (p.1 = k))
  · simp only [ha, if_pos]
    rw [alookup_map_overwrite]
    by_cases hk : k' = k <;> simp [hk, ha]
  · simp only [ha, if_neg, not_false_iff, Bool.false_eq_true]
    rw [alookup_append]
    by_cases hk : k' = k
    · subst hk
      have hn : alookup l k' = none := by
        rw [alookup_eq_none_iff]
        intro p hp hpk
        exact ha (List.any_eq_true.mpr ⟨p, hp, by simpa using hpk⟩)
      simp [hn, alookup_cons, optOr]
    · cases hl : alookup l k' <;>
        simp [optOr, alookup_cons, alookup_nil, Ne.symm hk, hl, hk]

theorem length_dictInsert {β : Type} (l : List (String × β)) (k : String) (v : β) :
    (dictInsert l k v).length ≤ l.length + 1 := by
  unfold dictInsert
  by_cases ha : l.any (fun p => decide (p.1 = k)) <;> simp [ha]

theorem alookup_eq_none_iff_not_mem (β : Type) (l : List (String × β)) (k : String) :
    alookup l k = none ↔ k ∉ l.map (fun e => e.1) := by
  rw [alookup_eq_none_iff]
  constructor
  · intro h hk
    obtain ⟨p, hp, hpk⟩ := List.mem_map.mp hk
    exact h p hp hpk
  · intro h p hp hpk
    exact h (List.mem_map.mpr ⟨p, hp, hpk⟩)


theorem alookup_filter_out (β : Type) (l : List (String × β)) (k k' : String) :
    alookup (l.filter (fun p => !decide (p.1 = k))) k' =
      if k' = k then none else alookup l k' := by
  induction l with
  | nil => by_cases h : k' = k <;> simp [alookup_nil, h]
  | cons p t ih =>
    rw [List.filter_cons]
    by_cases hp : p.1 = k
    · by_cases hk : k' = k
      · subst hk
        simp [hp, ih]
      · have hpk : ¬(p.1 = k') := by rw [hp]; exact fun he => hk he.symm
        have hkk : ¬(k = k') := fun he => hk he.symm
        simp [hp, ih, hk, alookup_cons, hpk, hkk]
    · by_cases hk : k' = k
      · subst hk
        simp [hp, alookup_cons, ih]
      · simp [hp, alookup_cons, ih, hk]


theorem alookup_append_single (β : Type) (l : List (String × β)) (k : String) (v : β)
    (hnone : alookup l k = none) : alookup (l ++ [(k, v)]) k = some v := by
  rw [alookup_append, hnone]
  simp [alookup_cons, optOr]


theorem alookup_append_other (β : Type) (l : List (String × β)) (k k' : String) (v : β)
    (h : k' ≠ k) : alookup (l ++ [(k, v)]) k' = alookup l k' := by
  have hkk : ¬(k = k') := fun he => h he.symm
  rw [alookup_append]
  cases hl : alookup l k' <;>
    simp [optOr, alookup_cons, alookup_nil, hkk]


/- ===================== C9: name normalization ===================== -/

theorem replaceDoubleUnderscore_eq_replacePairOnce (cs : List Char) :
    replaceDoubleUnderscore cs = replacePairOnce '_' '_' '_' cs := by
  induction cs using replaceDoubleUnderscore.induct with
  | case1 rest ih => simp [replaceDoubleUnderscore, replacePairOnce, ih]
  | case2 c rest h ih =>
    cases rest with
    | nil => simp [replaceDoubleUnderscore, replacePairOnce]
    | cons y t =>
      have hne : ¬(c = '_' ∧ y = '_') := by
        rintro ⟨rfl, rfl⟩; exact h t rfl rfl
      simp [replaceDoubleUnderscore, replacePairOnce, hne, ih]
  | case3 => simp [replaceDoubleUnderscore, replacePairOnce]

/-- C9, counterexample.  The claim says repeated underscores are collapsed in
the derived package name; but `.replace("__", "_")` is a single
non-overlapping pass, so the display name `"A   B"` (three spaces) yields
`"@a__b"`, not the fully collapsed `"@a_b"`. -/
theorem C9_counterexample :
    normalize_modname "A   B" = "@a__b" ∧
    spec_normalize_full "A   B" = "@a_b" ∧
    normalize_modname "A   B" ≠ spec_normalize_full "A   B" := by decide

/-- C9, amended.  For every display name, the derived PackageName is the
name with the fixed punctuation set stripped, lowercased, spaces replaced by
underscores, ONE left-to-right non-overlapping pass of double-underscore to
single-underscore applied (runs of three or more underscores are only
partially collapsed), and prefixed with `"@"`. -/
theorem C9_amended_normalization (s : String) :
    normalize_modname s = spec_normalize_amended s := by
  simp only [normalize_modname, spec_normalize_amended,
    replaceDoubleUnderscore_eq_replacePairOnce]

/- ===================== C10: parser invariants ===================== -/

theorem foldl_modsStep_snd (cs : List ModContainer)
    (acc : List (String × String) × List String) :
    (cs.foldl modsStep acc).2 =
      acc.2 ++ cs.map (fun mc => normalize_modname mc.displayName) := by
  induction cs generalizing acc with
  | nil => simp
  | cons mc t ih => simp [List.foldl_cons, modsStep, ih]

theorem lastIdFor_cons (mc : ModContainer) (cs : List ModContainer) (n : String) :
    lastIdFor (mc :: cs) n =
      optOr (lastIdFor cs n)
        (if normalize_modname mc.displayName = n then some (mod_id_of mc.link) else none) := by
  unfold lastIdFor
  rw [List.reverse_cons, List.find?_append]
  cases hf : (cs.reverse.find? fun mc => decide (normalize_modname mc.displayName = n)) with
  | some mc' => simp [hf, optOr, Option.or]
  | none =>
    by_cases h : normalize_modname mc.displayName = n <;>
      simp [hf, optOr, Option.or, List.find?, h]

theorem foldl_modsStep_lookup (cs : List ModContainer)
    (acc : List (String × String) × List String) (n : String) :
    alookup (cs.foldl modsStep acc).1 n = optOr (lastIdFor cs n) (alookup acc.1 n) := by
  induction cs generalizing acc with
  | nil => simp [lastIdFor, optOr]
  | cons mc t ih =>
    rw [List.foldl_cons, ih, lastIdFor_cons]
    show optOr (lastIdFor t n) (alookup (dictInsert acc.1 (normalize_modname mc.displayName) (mod_id_of mc.link)) n) = _
    rw [alookup_dictInsert]
    by_cases h : n = normalize_modname mc.displayName
    · cases hl : lastIdFor t n <;> simp [h, optOr]
    · have h' : ¬(normalize_modname mc.displayName = n) := fun he => h he.symm
      cases hl : lastIdFor t n <;> simp [h, h', optOr]

theorem foldl_modsStep_fst_length (cs : List ModContainer)
    (acc : List (String × String) × List String) :
    (cs.foldl modsStep acc).1.length ≤ acc.1.length + cs.length := by
  induction cs generalizing acc with
  | nil => simp
  | cons mc t ih =>
    rw [List.foldl_cons]
    calc (t.foldl modsStep (modsStep acc mc)).1.length
        ≤ (modsStep acc mc).1.length + t.length := ih _
      _ ≤ (acc.1.length + 1) + t.length := by
          exact Nat.add_le_add_right (length_dictInsert _ _ _) _
      _ = acc.1.length + (mc :: t).length := by simp [List.length_cons]; omega

theorem lastIdFor_isSome_of_mem {cs : List ModContainer} {mc : ModContainer}
    (hm : mc ∈ cs) : (lastIdFor cs (normalize_modname mc.displayName)).isSome := by
  have h1 : (cs.reverse.find?
      (fun mc' => decide (normalize_modname mc'.displayName =
        normalize_modname mc.displayName))).isSome := by
    rw [List.find?_isSome]
    exact ⟨mc, List.mem_reverse.mpr hm, by simp⟩
  obtain ⟨x, hx⟩ := Option.isSome_iff_exists.mp h1
  unfold lastIdFor
  rw [hx]
  rfl

/-- C10.  After parsing: the name list is exactly the per-row normalized
names (one occurrence per preset row, so duplicates repeat); every listed
name is a key of the registry; the registry maps each name to the id of the
LAST row normalizing to it; the registry is never larger than the name list —
and it can be strictly smaller, so consumers iterating the name list may
process a name twice. -/
theorem C10_parser_invariants :
    (∀ cs : List ModContainer,
      (mods cs).2 = cs.map (fun mc => normalize_modname mc.displayName) ∧
      (∀ n ∈ (mods cs).2, (alookup (mods cs).1 n).isSome) ∧
      (∀ n, alookup (mods cs).1 n = lastIdFor cs n) ∧
      (mods cs).1.length ≤ (mods cs).2.length) ∧
    (∃ cs : List ModContainer, (mods cs).1.length < (mods cs).2.length) := by
  constructor
  · intro cs
    have hsnd : (mods cs).2 = cs.map (fun mc => normalize_modname mc.displayName) := by
      simpa using foldl_modsStep_snd cs ([], [])
    have hlook : ∀ n, alookup (mods cs).1 n = lastIdFor cs n := by
      intro n
      have := foldl_modsStep_lookup cs ([], []) n
      cases hl : lastIdFor cs n <;> simpa [hl, optOr, alookup_nil] using this
    refine ⟨hsnd, ?_, hlook, ?_⟩
    · intro n hn
      rw [hsnd] at hn
      obtain ⟨mc, hmc, rfl⟩ := List.mem_map.mp hn
      rw [hlook]
      exact lastIdFor_isSome_of_mem hmc
    · have h1 := foldl_modsStep_fst_length cs ([], [])
      have h2 : (mods cs).2.length = cs.length := by simp [hsnd]
      simpa [h2] using h1
  · exact ⟨[⟨"Ace", "x=111"⟩, ⟨"ACE!", "y=222"⟩], by decide⟩

/-- C10, witness: concrete instantiation with a duplicate-normalizing preset
(`"Ace"` and `"ACE!"` both normalize to `"@ace"`). -/
theorem C10_parser_invariants_witness :
    (alookup (mods [⟨"Ace", "x=111"⟩, ⟨"ACE!", "y=222"⟩]).1 "@ace").isSome ∧
    alookup (mods [⟨"Ace", "x=111"⟩, ⟨"ACE!", "y=222"⟩]).1 "@ace" = some "222" := by
  refine ⟨(C10_parser_invariants.1 [⟨"Ace", "x=111"⟩, ⟨"ACE!", "y=222"⟩]).2.1 "@ace" (by decide), ?_⟩
  rw [(C10_parser_invariants.1 [⟨"Ace", "x=111"⟩, ⟨"ACE!", "y=222"⟩]).2.2.1 "@ace"]
  decide

/- ===================== C2: launch-param soft failure ===================== -/

/-- C2, counterexample.  The claim says an out-of-root mods directory is
logged and returned from without an exception; but
`Path(MODS_DIR).relative_to(SERVER_DIR)` (a3down.py line 453) sits outside
the `try` block, so with a non-empty registry and `MODS_DIR = opt/mods`,
`SERVER_DIR = srv`, the `ValueError` escapes the function. -/
theorem C2_counterexample :
    print_launch_params ["@ace"] ["opt", "mods"] ["srv"] false true =
      LaunchResult.raised := by decide

/-- C2, amended.  The emitter fails softly when the registry is empty (logs
an error and returns) and when the output-file write fails (caught and
logged); but when the mods directory is not nested under the server root the
relative-path `ValueError` propagates out of the function uncaught. -/
theorem C2_amended_soft_failure (names modsDir serverDir : List String)
    (isWindows writeOk : Bool) :
    (names = [] →
      print_launch_params names modsDir serverDir isWindows writeOk = .loggedEmpty) ∧
    (names ≠ [] → relativeTo modsDir serverDir = none →
      print_launch_params names modsDir serverDir isWindows writeOk = .raised) ∧
    (names ≠ [] → ∀ rel, relativeTo modsDir serverDir = some rel →
      print_launch_params names modsDir serverDir isWindows writeOk ≠ .raised) := by
  refine ⟨?_, ?_, ?_⟩
  · rintro rfl
    simp [print_launch_params]
  · intro hne hrel
    simp [print_launch_params, List.isEmpty_iff, hne, hrel]
  · intro hne rel hrel
    cases writeOk <;>
      simp [print_launch_params, List.isEmpty_iff, hne, hrel]

/-- C2, witness: the three soft/hard cases at concrete inputs. -/
theorem C2_amended_soft_failure_witness :
    print_launch_params [] ["a"] ["a"] true true = .loggedEmpty ∧
    print_launch_params ["@x"] ["opt"] ["srv"] true true = .raised ∧
    print_launch_params ["@x"] ["srv", "mods"] ["srv"] true false ≠ .raised := by
  exact ⟨(C2_amended_soft_failure [] ["a"] ["a"] true true).1 rfl,
    (C2_amended_soft_failure ["@x"] ["opt"] ["srv"] true true).2.1 (by decide) (by decide),
    (C2_amended_soft_failure ["@x"] ["srv", "mods"] ["srv"] true false).2.2 (by decide)
      ["mods"] (by decide)⟩

/- ===================== C4: launch-line shape ===================== -/

/-- C4, counterexample.  The claim says the line count equals the registry
size; but the lines are emitted per `A3Modnames` entry, and with the rows
`"Ace"` and `"ACE!"` (both normalizing to `"@ace"`) the name list has two
entries while the registry has one. -/
theorem C4_counterexample :
    (mods [⟨"Ace", "x=111"⟩, ⟨"ACE!", "y=222"⟩]).2 ≠ [] ∧
    (launchLines false ["mods"] (mods [⟨"Ace", "x=111"⟩, ⟨"ACE!", "y=222"⟩]).2).length = 2 ∧
    (mods [⟨"Ace", "x=111"⟩, ⟨"ACE!", "y=222"⟩]).1.length = 1 ∧
    (launchLines false ["mods"] (mods [⟨"Ace", "x=111"⟩, ⟨"ACE!", "y=222"⟩]).2).length ≠
      (mods [⟨"Ace", "x=111"⟩, ⟨"ACE!", "y=222"⟩]).1.length := by decide

/-- C4, amended.  The output has exactly one line per name-list entry (one
per preset row), so the line count equals the length of `A3Modnames`, which
is the number of rows and is at least — possibly strictly greater than — the
registry size; each line is the relative mods path joined with the name
followed by the platform separator (`";"` on Windows, `"\;"` otherwise), in
name-list order. -/
theorem C4_amended_launch_lines (isWindows : Bool) (rel : List String)
    (cs : List ModContainer) :
    ((launchLines isWindows rel (mods cs).2).length = (mods cs).2.length ∧
     (mods cs).2.length = cs.length ∧
     (mods cs).1.length ≤ (mods cs).2.length) ∧
    (∀ i (h : i < (mods cs).2.length),
      (launchLines isWindows rel (mods cs).2).get
          ⟨i, by simpa [launchLines] using h⟩ =
        renderPath isWindows (rel ++ [(mods cs).2.get ⟨i, h⟩]) ++ sepFor isWindows) := by
  constructor
  · refine ⟨by simp [launchLines], ?_, (C10_parser_invariants.1 cs).2.2.2⟩
    rw [(C10_parser_invariants.1 cs).1]
    simp
  · intro i h
    simp [launchLines]

/-- C4, witness: concrete two-row preset, Linux separator. -/
theorem C4_amended_launch_lines_witness :
    (launchLines false ["mods"] (mods [⟨"Ace", "x=111"⟩, ⟨"CBA A3", "y=222"⟩]).2).get
        ⟨0, by decide⟩ = "mods/@ace\\;" ∧
    (launchLines false ["mods"] (mods [⟨"Ace", "x=111"⟩, ⟨"CBA A3", "y=222"⟩]).2).get
        ⟨1, by decide⟩ = "mods/@cba_a3\\;" := by
  have h0 := (C4_amended_launch_lines false ["mods"]
    [⟨"Ace", "x=111"⟩, ⟨"CBA A3", "y=222"⟩]).2 0 (by decide)
  have h1 := (C4_amended_launch_lines false ["mods"]
    [⟨"Ace", "x=111"⟩, ⟨"CBA A3", "y=222"⟩]).2 1 (by decide)
  refine ⟨?_, ?_⟩
  · rw [h0]; decide
  · rw [h1]; decide

/- ===================== C5: staleness oracle ===================== -/

/-- C5.  `mod_needs_update` returns `True` iff the changelog page was fetched
successfully, the fixed announcement-timestamp pattern matched, and the
extracted timestamp is ≥ the local directory's creation timestamp.  A request
error (network failure, timeout) or an unparsable body resolves to `False`;
the function is total, so no exception propagates from these cases. -/
theorem C5_oracle_iff (fetch : FetchResult) (ctime : Nat) :
    mod_needs_update fetch ctime = true ↔
      ∃ body ts, fetch = .ok body ∧ searchUpdatePattern body = some ts ∧ ctime ≤ ts := by
  cases fetch with
  | requestError m => simp [mod_needs_update]
  | ok body =>
    cases hp : searchUpdatePattern body with
    | none => simp [mod_needs_update, hp]
    | some ts => simp [mod_needs_update, hp]

/- ===================== C1: update_mods and the FailureLedger ===================== -/

theorem runLoopF_none (M : Nat) :
    ∀ fuel t, runLoopF none M fuel t = min (t + fuel) (max t M) := by
  intro fuel
  induction fuel with
  | zero => intro t; simp [runLoopF]
  | succ f ih =>
    intro t
    by_cases h : t < M
    · simp [runLoopF, presentAfter, h, ih]; omega
    · simp [runLoopF, presentAfter, h]; omega

theorem runLoopF_some (j M : Nat) : ∀ fuel t, t ≤ M →
    runLoopF (some j) M fuel t = max t (min (min j M) (t + fuel)) := by
  intro fuel
  induction fuel with
  | zero => intro t ht; simp [runLoopF]
  | succ f ih =>
    intro t ht
    by_cases hj : j ≤ t
    · simp [runLoopF, presentAfter, hj]
    · by_cases hM : t < M
      · simp [runLoopF, presentAfter, hj, hM, ih (t + 1) (by omega)]; omega
      · simp [runLoopF, presentAfter, hj, hM]; omega

theorem ledger_write_iff (M : Nat) (m : ModInput) :
    M ≤ runLoopF m.appearsAfter M M 0 ↔
      (m.appearsAfter = none ∨ ∃ j, m.appearsAfter = some j ∧ M ≤ j) := by
  cases ha : m.appearsAfter with
  | none => rw [runLoopF_none]; simp
  | some j => rw [runLoopF_some j M M 0 (by omega)]; simp

theorem modWritesLedger_iff (M : Nat) (m : ModInput) :
    modWritesLedger M m = true ↔
      modSkipped m = false ∧ M ≤ runLoopF m.appearsAfter M M 0 := by
  unfold modWritesLedger
  have hiff := ledger_write_iff M m
  cases ha : m.appearsAfter with
  | none =>
    rw [ha] at hiff
    simp [hiff.mpr (Or.inl rfl)]
  | some j =>
    rw [ha] at hiff
    constructor
    · intro h
      simp at h
      exact ⟨h.1, hiff.mpr (Or.inr ⟨j, rfl, h.2⟩)⟩
    · rintro ⟨h1, h2⟩
      rcases hiff.mp h2 with hc | ⟨j', hj', hMj⟩
      · cases hc
      · injection hj' with hjj
        subst hjj
        simp [h1, hMj]

theorem processMod_eq (M : Nat) (file : Option (List String)) (m : ModInput) :
    processMod M file m = if modWritesLedger M m then appendLedger file m.id else file := by
  unfold processMod
  by_cases hw : modWritesLedger M m = true
  · obtain ⟨h1, h2⟩ := (modWritesLedger_iff M m).mp hw
    simp [h1, h2, hw]
  · rw [if_neg hw]
    by_cases hs : modSkipped m
    · simp [hs]
    · have h2 : ¬M ≤ runLoopF m.appearsAfter M M 0 := fun hc =>
        hw ((modWritesLedger_iff M m).mpr ⟨by simpa using hs, hc⟩)
      simp [hs, h2]

theorem foldl_processMod (M : Nat) (ms : List ModInput) :
    ∀ file, ms.foldl (processMod M) file =
      ((ms.filter (modWritesLedger M)).map (fun m => m.id)).foldl appendLedger file := by
  induction ms with
  | nil => intro file; simp
  | cons m t ih =>
    intro file
    rw [List.foldl_cons, processMod_eq, List.filter_cons]
    by_cases hw : modWritesLedger M m
    · simp [hw, ih]
    · simp [hw, ih]

theorem foldl_appendLedger (ids : List String) :
    ∀ file, ids.foldl appendLedger file =
      (match file with
       | none => if ids = [] then none else some ids
       | some l => some (l ++ ids)) := by
  induction ids with
  | nil => intro file; cases file <;> simp
  | cons i t ih =>
    intro file
    cases file with
    | none => rw [List.foldl_cons]; simp [appendLedger, ih]
    | some l => rw [List.foldl_cons]; simp [appendLedger, ih]

/-- C1, counterexample.  The claim says nothing is written to the ledger for
a package whose directory reappears within the retry budget, including on
the final attempt.  With `MAX_TRIES = 2` and a package whose directory
reappears exactly on the 2nd (final) invocation, the loop exits with
`tries = 2`, the `tries >= MAX_TRIES` test at a3down.py line 327 fires, and
the id is appended to the ledger despite the successful download. -/
theorem C1_counterexample :
    presentAfter (some 2) 2 = true ∧
    update_mods 2 [⟨"450814997", false, false, false, some 2⟩] none =
      some ["450814997"] := by decide

/-- C1, amended.  The ledger file is deleted at the start of the pass (the
result is independent of the initial file), every package is processed (no
exhaustion aborts the batch), and an id is appended exactly when the package
was not skipped as up-to-date and its directory was absent until at least
the `MAX_TRIES`-th fetch invocation — in particular a package whose
directory reappears exactly on the final attempt IS recorded, while one
whose directory reappears strictly earlier is not. -/
theorem C1_amended_ledger (M : Nat) (ms : List ModInput) (file0 : Option (List String)) :
    update_mods M ms file0 =
      (if (ms.filter (modWritesLedger M)).map (fun m => m.id) = [] then none
       else some ((ms.filter (modWritesLedger M)).map (fun m => m.id))) := by
  unfold update_mods deleteFile
  rw [foldl_processMod, foldl_appendLedger]

/- ===================== C7: retry_failed_mods ===================== -/

theorem retryIdLoop_none_sched (fuel : Nat) :
    ∀ t, retryIdLoop none fuel t = none := by
  induction fuel with
  | zero => intro t; simp [retryIdLoop, presentAfter]
  | succ f ih => intro t; simp [retryIdLoop, presentAfter, ih]

theorem retryIdLoop_some_sched (j : Nat) : ∀ fuel t,
    retryIdLoop (some j) fuel t = if j ≤ t + fuel then some (max t j) else none := by
  intro fuel
  induction fuel with
  | zero =>
    intro t
    by_cases h : j ≤ t
    · simp [retryIdLoop, presentAfter, h, Nat.max_eq_left h]
    · simp [retryIdLoop, presentAfter, h]
  | succ f ih =>
    intro t
    by_cases hp : j ≤ t
    · have h1 : j ≤ t + (f + 1) := by omega
      simp [retryIdLoop, presentAfter, hp, h1, Nat.max_eq_left hp]
    · have hmax : max (t + 1) j = max t j := by omega
      have harith : t + 1 + f = t + (f + 1) := by omega
      simp only [retryIdLoop, presentAfter, hp, decide_eq_true_eq, if_neg]
      rw [ih (t + 1), hmax, harith]
      simp

theorem retryAll_some_iff (env : RetryEnv) : ∀ ids fuel,
    (∃ atts, retryAll env ids fuel = some atts) ↔
      ∀ i ∈ ids, ∃ j, lookupSched env i = some j ∧ j ≤ fuel := by
  intro ids
  induction ids with
  | nil => intro fuel; simp [retryAll]
  | cons i t ih =>
    intro fuel
    rw [retryAll]
    cases hs : lookupSched env i with
    | none => simp [retryIdLoop_none_sched, hs]
    | some j =>
      rw [retryIdLoop_some_sched]
      by_cases hj : j ≤ 0 + fuel
      · have hj' : j ≤ fuel := by omega
        simp only [hj, if_pos]
        constructor
        · rintro ⟨atts, hatts⟩
          cases hr : retryAll env t fuel with
          | none => rw [hr] at hatts; simp at hatts
          | some atts' =>
            intro x hx
            rcases List.mem_cons.mp hx with rfl | hxt
            · exact ⟨j, hs, hj'⟩
            · exact (ih fuel).mp ⟨atts', hr⟩ x hxt
        · intro hall
          obtain ⟨atts', hr⟩ := (ih fuel).mpr (fun x hx => hall x (List.mem_cons_of_mem _ hx))
          exact ⟨(i, max 0 j) :: atts', by rw [hr]; rfl⟩
      · simp only [hj, if_neg, not_false_iff]
        constructor
        · rintro ⟨atts, hatts⟩; simp at hatts
        · intro hall
          obtain ⟨j', hj', hle⟩ := hall i (List.mem_cons_self i t)
          rw [hs] at hj'
          injection hj' with hjj
          omega

theorem retry_failed_mods_eq_none (env : RetryEnv) (fuel : Nat)
    (h : env.ledgerFile = none) :
    retry_failed_mods env fuel = some (.noFile, none) := by
  unfold retry_failed_mods
  rw [h]

theorem retry_failed_mods_eq_some (env : RetryEnv) (fuel : Nat) (content : String)
    (h : env.ledgerFile = some content) :
    retry_failed_mods env fuel =
      (match retryAll env (parseLedger content) fuel with
       | none => none
       | some atts => some (.completed atts, none)) := by
  unfold retry_failed_mods
  rw [h]

theorem exists_fuel_bound (env : RetryEnv) : ∀ ids : List String,
    (∀ i ∈ ids, (lookupSched env i).isSome) →
    ∃ fuel, ∀ i ∈ ids, ∃ j, lookupSched env i = some j ∧ j ≤ fuel := by
  intro ids
  induction ids with
  | nil => intro _; exact ⟨0, by simp⟩
  | cons i t ih =>
    intro hall
    obtain ⟨f1, hf1⟩ := ih (fun x hx => hall x (List.mem_cons_of_mem _ hx))
    obtain ⟨j, hj⟩ := Option.isSome_iff_exists.mp (hall i (List.mem_cons_self i t))
    refine ⟨max f1 j, fun x hx => ?_⟩
    rcases List.mem_cons.mp hx with rfl | hxt
    · exact ⟨j, hj, le_max_right _ _⟩
    · obtain ⟨j', hj', hle⟩ := hf1 x hxt
      exact ⟨j', hj', le_trans hle (le_max_left _ _)⟩

/-- C7.  (i) If `retry_failed_mods` terminates normally, the ledger file no
longer exists afterwards, and — when a ledger was present — the outcome is a
completed pass in which every listed id's directory became non-empty.
(ii) With a ledger present, there is a fuel making the pass terminate (and
hence delete the ledger) if and only if every listed id eventually succeeds:
the per-id loop has no upper bound, so arbitrarily late successes still
complete the pass, while a single never-succeeding id keeps the ledger
forever. -/
theorem C7_retry_pass (env : RetryEnv) :
    (∀ fuel r after, retry_failed_mods env fuel = some (r, after) →
      after = none ∧
      ∀ content, env.ledgerFile = some content →
        ∃ atts, r = .completed atts ∧
          ∀ i ∈ parseLedger content, ∃ tok, presentAfter (lookupSched env i) tok = true) ∧
    (∀ content, env.ledgerFile = some content →
      ((∃ fuel atts, retry_failed_mods env fuel = some (.completed atts, none)) ↔
        ∀ i ∈ parseLedger content, (lookupSched env i).isSome)) := by
  constructor
  · intro fuel r after h
    cases hl : env.ledgerFile with
    | none =>
      rw [retry_failed_mods_eq_none env fuel hl] at h
      refine ⟨?_, fun content hc => ?_⟩
      · injection h with h'
        exact (congrArg Prod.snd h').symm
      · exact Option.noConfusion hc
    | some content =>
      rw [retry_failed_mods_eq_some env fuel content hl] at h
      cases hr : retryAll env (parseLedger content) fuel with
      | none => rw [hr] at h; cases h
      | some atts =>
        rw [hr] at h
        injection h with h'
        refine ⟨(congrArg Prod.snd h').symm, fun content' hc' => ?_⟩
        injection hc' with hcc
        subst hcc
        refine ⟨atts, (congrArg Prod.fst h').symm, fun i hi => ?_⟩
        obtain ⟨j, hj, hle⟩ :=
          (retryAll_some_iff env (parseLedger content) fuel).mp ⟨atts, hr⟩ i hi
        exact ⟨j, by simp [hj, presentAfter]⟩
  · intro content hc
    constructor
    · rintro ⟨fuel, atts, h⟩
      rw [retry_failed_mods_eq_some env fuel content hc] at h
      cases hr : retryAll env (parseLedger content) fuel with
      | none => rw [hr] at h; cases h
      | some atts' =>
        intro i hi
        obtain ⟨j, hj, _⟩ :=
          (retryAll_some_iff env (parseLedger content) fuel).mp ⟨atts', hr⟩ i hi
        simp [hj]
    · intro hall
      obtain ⟨fuel, hfuel⟩ := exists_fuel_bound env (parseLedger content) hall
      obtain ⟨atts, hatts⟩ := (retryAll_some_iff env (parseLedger content) fuel).mpr hfuel
      refine ⟨fuel, atts, ?_⟩
      rw [retry_failed_mods_eq_some env fuel content hc, hatts]

/-- C7, witness: a one-id ledger whose directory appears after 3 invocations
terminates, deletes the ledger, and reports a non-empty directory; and the
deletion-iff-success equivalence instantiated at the same environment. -/
theorem C7_retry_pass_witness :
    (retry_failed_mods ⟨some "450814997\n", [("450814997", 3)]⟩ 5 =
        some (.completed [("450814997", 3)], none) →
      ∀ i ∈ parseLedger "450814997\n",
        ∃ tok, presentAfter (lookupSched ⟨some "450814997\n", [("450814997", 3)]⟩ i) tok = true) ∧
    ((∃ fuel atts, retry_failed_mods ⟨some "450814997\n", [("450814997", 3)]⟩ fuel =
        some (.completed atts, none)) ↔
      ∀ i ∈ parseLedger "450814997\n",
        (lookupSched ⟨some "450814997\n", [("450814997", 3)]⟩ i).isSome) := by
  constructor
  · intro h i hi
    obtain ⟨atts, _, hall⟩ :=
      ((C7_retry_pass ⟨some "450814997\n", [("450814997", 3)]⟩).1 5
        (.completed [("450814997", 3)]) none h).2 "450814997\n" rfl
    exact hall i hi
  · exact (C7_retry_pass ⟨some "450814997\n", [("450814997", 3)]⟩).2 "450814997\n" rfl

/- ===================== C8: link provisioning ===================== -/

theorem alookup_append_mono {β : Type} (l l2 : List (String × β)) (n : String)
    {v : β} (h : alookup l n = some v) : alookup (l ++ l2) n = some v := by
  rw [alookup_append, h]
  rfl

theorem linkStep_links_shape (env : LinkEnv) (st : LinkRun) (nm : String × String) :
    (linkStep env st nm).links = st.links ∨
    (alookup st.links nm.1 = none ∧
      (linkStep env st nm).links = st.links ++ [(nm.1, linkTarget nm.2)]) := by
  cases halo : alookup st.links nm.1 with
  | some t =>
    left
    by_cases hr : env.realDirs.any (fun i => decide (i = nm.2)) = true <;>
      by_cases ha : targetAlive env t = true <;>
        simp [linkStep, halo, hr, ha]
  | none =>
    by_cases hr : env.realDirs.any (fun i => decide (i = nm.2)) = true
    · cases hcl : env.canLink
      · left
        simp [linkStep, halo, hr, hcl]
      · right
        exact ⟨rfl, by simp [linkStep, halo, hr, hcl]⟩
    · left
      simp [linkStep, halo, hr]

theorem run_links_isSome_mono (env : LinkEnv) :
    ∀ (ms : List (String × String)) (st : LinkRun) (n : String),
      (alookup st.links n).isSome = true →
      (alookup ((ms.foldl (linkStep env) st).links) n).isSome = true := by
  intro ms
  induction ms with
  | nil => intro st n h; simpa using h
  | cons nm t ih =>
    intro st n h
    rw [List.foldl_cons]
    apply ih
    obtain ⟨v, hv⟩ := Option.isSome_iff_exists.mp h
    rcases linkStep_links_shape env st nm with heq | ⟨_, heq⟩
    · rw [heq]
      simpa using h
    · rw [heq, alookup_append_mono _ _ _ hv]
      rfl

theorem run_covers (env : LinkEnv) (hcl : env.canLink = true) :
    ∀ (ms : List (String × String)) (st : LinkRun),
    ∀ nm ∈ ms, env.realDirs.any (fun i => decide (i = nm.2)) = true →
      (alookup ((ms.foldl (linkStep env) st).links) nm.1).isSome = true := by
  intro ms
  induction ms with
  | nil => intro st nm h; cases h
  | cons hd t ih =>
    intro st nm hmem hreal
    rcases List.mem_cons.mp hmem with rfl | hxt
    · rw [List.foldl_cons]
      apply run_links_isSome_mono
      cases halo : alookup st.links nm.1 with
      | some v =>
        rcases linkStep_links_shape env st nm with heq | ⟨hnone, heq⟩
        · rw [heq, halo]
          rfl
        · rw [hnone] at halo
          cases halo
      | none =>
        have hcreate : (linkStep env st nm).links =
            st.links ++ [(nm.1, linkTarget nm.2)] := by
          simp [linkStep, halo, hreal, hcl]
        rw [hcreate, alookup_append_single _ _ _ _ halo]
        rfl
    · rw [List.foldl_cons]
      exact ih (linkStep env st hd) nm hxt hreal

theorem run_no_create (env : LinkEnv) :
    ∀ (ms : List (String × String)) (st : LinkRun),
    (∀ nm ∈ ms, env.realDirs.any (fun i => decide (i = nm.2)) = true →
        (alookup st.links nm.1).isSome = true) →
    ((ms.foldl (linkStep env) st).links = st.links ∧
     (ms.foldl (linkStep env) st).createdLinks = st.createdLinks) := by
  intro ms
  induction ms with
  | nil => intro st _; exact ⟨rfl, rfl⟩
  | cons nm t ih =>
    intro st h
    have hl : (linkStep env st nm).links = st.links ∧
        (linkStep env st nm).createdLinks = st.createdLinks := by
      by_cases hreal : env.realDirs.any (fun i => decide (i = nm.2)) = true
      · obtain ⟨v, hv⟩ := Option.isSome_iff_exists.mp
          (h nm (List.mem_cons_self nm t) hreal)
        by_cases ha : targetAlive env v = true
        · constructor <;> simp [linkStep, hv, ha, hreal]
        · constructor <;> simp [linkStep, hv, ha, hreal]
      · constructor <;> simp [linkStep, hreal]
    rw [List.foldl_cons]
    have hrec := ih (linkStep env st nm)
      (fun x hx hr => by rw [hl.1]; exact h x (List.mem_cons_of_mem _ hx) hr)
    exact ⟨hrec.1.trans hl.1, hrec.2.trans hl.2⟩

theorem run_nocanlink (env : LinkEnv) (hcl : env.canLink = false) :
    ∀ (ms : List (String × String)) (st : LinkRun),
    ((ms.foldl (linkStep env) st).links = st.links ∧
     (ms.foldl (linkStep env) st).createdLinks = st.createdLinks) := by
  intro ms
  induction ms with
  | nil => intro st; exact ⟨rfl, rfl⟩
  | cons nm t ih =>
    intro st
    have hl : (linkStep env st nm).links = st.links ∧
        (linkStep env st nm).createdLinks = st.createdLinks := by
      by_cases hreal : env.realDirs.any (fun i => decide (i = nm.2)) = true
      · cases halo : alookup st.links nm.1 with
        | some v =>
          by_cases ha : targetAlive env v = true
          · constructor <;> simp [linkStep, halo, ha, hreal]
          · constructor <;> simp [linkStep, halo, ha, hreal]
        | none => constructor <;> simp [linkStep, halo, hreal, hcl]
      · constructor <;> simp [linkStep, hreal]
    rw [List.foldl_cons]
    have hrec := ih (linkStep env st nm)
    exact ⟨hrec.1.trans hl.1, hrec.2.trans hl.2⟩

theorem run_created_shape (env : LinkEnv) :
    ∀ (ms : List (String × String)) (st : LinkRun),
    ∀ nt ∈ (ms.foldl (linkStep env) st).createdLinks,
      nt ∈ st.createdLinks ∨
        ∃ id, nt.2 = linkTarget id ∧ env.realDirs.any (fun i => decide (i = id)) = true := by
  intro ms
  induction ms with
  | nil => intro st nt h; exact Or.inl h
  | cons nm t ih =>
    intro st nt hmem
    rw [List.foldl_cons] at hmem
    rcases ih (linkStep env st nm) nt hmem with hin | hex
    · by_cases hreal : env.realDirs.any (fun i => decide (i = nm.2)) = true
      · cases halo : alookup st.links nm.1 with
        | some v =>
          by_cases ha : targetAlive env v = true
          · simp [linkStep, halo, ha, hreal] at hin
            exact Or.inl hin
          · simp [linkStep, halo, ha, hreal] at hin
            exact Or.inl hin
        | none =>
          cases hcl : env.canLink
          · simp [linkStep, halo, hreal, hcl] at hin
            exact Or.inl hin
          · simp [linkStep, halo, hreal, hcl] at hin
            rcases hin with hin | hin
            · exact Or.inl hin
            · exact Or.inr ⟨nm.2, by simp [hin], hreal⟩
      · simp [linkStep, hreal] at hin
        exact Or.inl hin
    · exact Or.inr hex

theorem run_missing_shape (env : LinkEnv) :
    ∀ (ms : List (String × String)) (st : LinkRun),
    ∀ n ∈ (ms.foldl (linkStep env) st).missingLogs,
      n ∈ st.missingLogs ∨
        ∃ id, (n, id) ∈ ms ∧ env.realDirs.any (fun i => decide (i = id)) = false := by
  intro ms
  induction ms with
  | nil => intro st n h; exact Or.inl h
  | cons nm t ih =>
    intro st n hmem
    rw [List.foldl_cons] at hmem
    rcases ih (linkStep env st nm) n hmem with hin | ⟨id, hmem2, hfalse⟩
    · by_cases hreal : env.realDirs.any (fun i => decide (i = nm.2)) = true
      · cases halo : alookup st.links nm.1 with
        | some v =>
          by_cases ha : targetAlive env v = true
          · simp [linkStep, halo, ha, hreal] at hin
            exact Or.inl hin
          · simp [linkStep, halo, ha, hreal] at hin
            exact Or.inl hin
        | none =>
          cases hcl : env.canLink <;> simp [linkStep, halo, hreal, hcl] at hin <;>
            exact Or.inl hin
      · simp [linkStep, hreal] at hin
        rcases hin with hin | hin
        · exact Or.inl hin
        · refine Or.inr ⟨nm.2, ?_, by simp only [Bool.not_eq_true] at hreal; exact hreal⟩
          rw [hin]
          exact List.mem_cons_self _ _
    · exact Or.inr ⟨id, List.mem_cons_of_mem _ hmem2, hfalse⟩

theorem linkStep_skip_alive (env : LinkEnv) (st : LinkRun) (nm : String × String)
    (t : String) (hreal : env.realDirs.any (fun i => decide (i = nm.2)) = true)
    (he : alookup st.links nm.1 = some t) (ha : targetAlive env t = true) :
    linkStep env st nm = st := by
  simp [linkStep, he, ha, hreal]

theorem linkStep_dangling_logged (env : LinkEnv) (st : LinkRun) (nm : String × String)
    (t : String) (hreal : env.realDirs.any (fun i => decide (i = nm.2)) = true)
    (he : alookup st.links nm.1 = some t) (ha : targetAlive env t = false) :
    linkStep env st nm = { st with failLogs := st.failLogs ++ [nm.1] } := by
  simp [linkStep, he, ha, hreal]

/-- C8, counterexample.  The claim says an existing link at the package's
link path is skipped silently, without probing the existing link's target.
But `link_path.exists()` (a3down.py line 424) follows symlinks: with a
dangling pre-existing link `@a -> workshop/9` (workshop id 9 gone) and
content id 1 present, the run does NOT skip silently — it attempts creation,
`os.symlink` hits the existing entry (`FileExistsError`) and the failure is
logged with nothing created, while the same directory whose entry resolves
(`workshop/1`) IS skipped silently: the outcome depends on the existing
link's target. -/
theorem C8_counterexample :
    (create_mod_symlinks ⟨[("@a", "1")], ["1"], true, []⟩
        [("@a", "workshop/9")]).failLogs = ["@a"] ∧
    (create_mod_symlinks ⟨[("@a", "1")], ["1"], true, []⟩
        [("@a", "workshop/9")]).createdLinks = [] ∧
    (create_mod_symlinks ⟨[("@a", "1")], ["1"], true, []⟩
        [("@a", "workshop/9")]).links = [("@a", "workshop/9")] ∧
    (create_mod_symlinks ⟨[("@a", "1")], ["1"], true, []⟩
        [("@a", "workshop/1")]).failLogs = [] := by decide

/-- C8, amended.  The Link Provisioner: (a) is idempotent — re-running it on
the state it produced creates nothing and leaves the entries unchanged
(even dangling entries just fail and log again, with no mutation);
(b) never creates a dangling link — every link it creates targets a present
content directory; (c) every "does not exist" log entry names a registry
item whose content directory is missing; (d) an entry whose target RESOLVES
is skipped silently (the iteration changes nothing at all), while a
dangling pre-existing entry makes the creation attempt fail against the
existing path: the failure is logged and nothing is mutated — the dangling
link is neither repaired nor removed, so the outcome depends on the
existing entry's target. -/
theorem C8_amended_provisioning (env : LinkEnv) (links0 : List (String × String)) :
    ((create_mod_symlinks env (create_mod_symlinks env links0).links).createdLinks = [] ∧
     (create_mod_symlinks env (create_mod_symlinks env links0).links).links =
       (create_mod_symlinks env links0).links) ∧
    (∀ nt ∈ (create_mod_symlinks env links0).createdLinks,
      ∃ id, nt.2 = linkTarget id ∧ env.realDirs.any (fun i => decide (i = id)) = true) ∧
    (∀ n ∈ (create_mod_symlinks env links0).missingLogs,
      ∃ id, (n, id) ∈ env.modlist ∧ env.realDirs.any (fun i => decide (i = id)) = false) ∧
    (∀ (st : LinkRun) (nm : String × String) (t : String),
      env.realDirs.any (fun i => decide (i = nm.2)) = true →
      alookup st.links nm.1 = some t →
      (targetAlive env t = true → linkStep env st nm = st) ∧
      (targetAlive env t = false →
        linkStep env st nm = { st with failLogs := st.failLogs ++ [nm.1] })) := by
  refine ⟨?_, ?_, ?_, ?_⟩
  · cases hcl : env.canLink
    · have h2 := run_nocanlink env hcl env.modlist
        { links := (create_mod_symlinks env links0).links, createdLinks := [],
          missingLogs := [], failLogs := [] }
      exact ⟨h2.2, h2.1⟩
    · have hcov : ∀ nm ∈ env.modlist,
          env.realDirs.any (fun i => decide (i = nm.2)) = true →
          (alookup (create_mod_symlinks env links0).links nm.1).isSome = true :=
        fun nm hmem hreal => run_covers env hcl env.modlist
          { links := links0, createdLinks := [], missingLogs := [], failLogs := [] }
          nm hmem hreal
      have h := run_no_create env env.modlist
        { links := (create_mod_symlinks env links0).links, createdLinks := [],
          missingLogs := [], failLogs := [] } (fun nm hmem hreal => hcov nm hmem hreal)
      exact ⟨h.2, h.1⟩
  · intro nt hnt
    rcases run_created_shape env env.modlist
        { links := links0, createdLinks := [], missingLogs := [], failLogs := [] }
        nt hnt with h | h
    · cases h
    · exact h
  · intro n hn
    rcases run_missing_shape env env.modlist
        { links := links0, createdLinks := [], missingLogs := [], failLogs := [] }
        n hn with h | h
    · cases h
    · exact h
  · intro st nm t hreal he
    exact ⟨fun ha => linkStep_skip_alive env st nm t hreal he ha,
           fun ha => linkStep_dangling_logged env st nm t hreal he ha⟩

/-- C8, witness: a registry with one present and one missing content
directory plus an unregistered dangling entry, run twice; and the
silent-skip instance at a resolving entry. -/
theorem C8_amended_provisioning_witness :
    (create_mod_symlinks ⟨[("@a", "1"), ("@b", "2")], ["1"], true, []⟩
        (create_mod_symlinks ⟨[("@a", "1"), ("@b", "2")], ["1"], true, []⟩
          [("@c", "workshop/9")]).links).createdLinks = [] ∧
    (∀ nt ∈ (create_mod_symlinks ⟨[("@a", "1"), ("@b", "2")], ["1"], true, []⟩
        [("@c", "workshop/9")]).createdLinks,
      ∃ id, nt.2 = linkTarget id ∧ (["1"].any (fun i => decide (i = id))) = true) ∧
    linkStep ⟨[("@a", "1"), ("@b", "2")], ["1"], true, []⟩
        { links := [("@a", "workshop/1")], createdLinks := [], missingLogs := [],
          failLogs := [] } ("@a", "1") =
      { links := [("@a", "workshop/1")], createdLinks := [], missingLogs := [],
        failLogs := [] } := by
  refine ⟨(C8_amended_provisioning ⟨[("@a", "1"), ("@b", "2")], ["1"], true, []⟩
      [("@c", "workshop/9")]).1.1, ?_, ?_⟩
  · intro nt hnt
    exact (C8_amended_provisioning ⟨[("@a", "1"), ("@b", "2")], ["1"], true, []⟩
      [("@c", "workshop/9")]).2.1 nt hnt
  · exact ((C8_amended_provisioning ⟨[("@a", "1"), ("@b", "2")], ["1"], true, []⟩
      [("@c", "workshop/9")]).2.2.2
      { links := [("@a", "workshop/1")], createdLinks := [], missingLogs := [],
        failLogs := [] }
      ("@a", "1") "workshop/1" (by decide) (by decide)).1 (by decide)

/- ===================== C3 / C6: copy_keys helper lemmas ===================== -/

theorem claimedBy_nil (k : String) : claimedBy [] k = none := rfl

theorem claimedBy_append_single (P : List (String × String)) (m k k' : String) :
    claimedBy (P ++ [(m, k)]) k' =
      optOr (claimedBy P k') (if k = k' then some m else none) := by
  unfold claimedBy
  rw [List.find?_append]
  cases hf : P.find? (fun mk => decide (mk.2 = k')) with
  | some mk => simp [Option.or, optOr]
  | none =>
    by_cases h : k = k'
    · subst h
      simp [Option.or, optOr, List.find?]
    · simp [Option.or, optOr, List.find?, h]

theorem claimedBy_mem {P : List (String × String)} {k m : String}
    (h : claimedBy P k = some m) : ∃ mk ∈ P, mk.1 = m ∧ mk.2 = k := by
  unfold claimedBy at h
  cases hf : P.find? (fun mk => decide (mk.2 = k)) with
  | none => rw [hf] at h; cases h
  | some mk =>
    rw [hf] at h
    injection h with hm
    refine ⟨mk, List.mem_of_find?_eq_some hf, hm, ?_⟩
    have := List.find?_some hf
    simpa using this

theorem claimedBy_eq_none_iff (P : List (String × String)) (k : String) :
    claimedBy P k = none ↔ ∀ mk ∈ P, mk.2 ≠ k := by
  unfold claimedBy
  cases hf : P.find? (fun mk => decide (mk.2 = k)) with
  | some mk =>
    constructor
    · intro h; cases h
    · intro h
      have h1 := List.find?_some hf
      have h2 := List.mem_of_find?_eq_some hf
      exact absurd (by simpa using h1) (h mk h2)
  | none =>
    rw [List.find?_eq_none] at hf
    constructor
    · intro _ mk hmk
      simpa using hf mk hmk
    · intro _
      rfl

theorem processModKeys_eq_foldl (env : KeysEnv) (st : KState) (m : String) :
    processModKeys env st m =
      ((match alookup env.keyFolders m with
        | none => []
        | some ks => ks.map (fun k => (m, k))) : List (String × String)).foldl
        (fun st mk => processKey env mk.1 st mk.2) st := by
  unfold processModKeys
  cases h : alookup env.keyFolders m with
  | none => rfl
  | some ks => rw [List.foldl_map]

theorem copy_keys_eq_foldl (env : KeysEnv) (d0 : List (String × FsEntry)) :
    copy_keys env d0 =
      (contributions env).foldl (fun st mk => processKey env mk.1 st mk.2)
        (initKState env d0) := by
  unfold copy_keys contributions
  suffices h : ∀ (names : List String) (st : KState),
      names.foldl (processModKeys env) st =
        (names.flatMap (fun m =>
          match alookup env.keyFolders m with
          | none => []
          | some ks => ks.map (fun k => (m, k)))).foldl
          (fun st mk => processKey env mk.1 st mk.2) st by
    exact h env.names (initKState env d0)
  intro names
  induction names with
  | nil => intro st; rfl
  | cons m t ih =>
    intro st
    rw [List.foldl_cons, List.flatMap_cons, List.foldl_append, ih,
      processModKeys_eq_foldl]

theorem optOr_none_right {α : Type} (a : Option α) : optOr a none = a := by
  cases a <;> rfl

theorem isCorrectLink_link {env : KeysEnv} {e : FsEntry} {src : String}
    (h : isCorrectLink env e src = true) : e = FsEntry.link src := by
  cases e with
  | link t =>
    simp only [isCorrectLink, Bool.and_eq_true, decide_eq_true_eq] at h
    rw [h.2]
  | file => simp [isCorrectLink] at h

theorem filter_fst_singleton (k m k' : String) :
    (([(k, m)] : List (String × String)).filter (fun e => decide (e.1 = k'))) =
      if k = k' then [(k, m)] else [] := by
  by_cases h : k = k' <;> simp [List.filter, h]

theorem filter_snd_singleton (m k k' : String) :
    (([(m, k)] : List (String × String)).filter (fun e => decide (e.2 = k'))) =
      if k = k' then [(m, k)] else [] := by
  by_cases h : k = k' <;> simp [List.filter, h]


theorem createKey_keysDir_shape (env : KeysEnv) (m : String) (st : KState) (key : String) :
    (createKey env m st key).keysDir = st.keysDir ∨
    ∃ e, (createKey env m st key).keysDir = st.keysDir ++ [(key, e)] := by
  cases h1 : env.symlinkFails m key with
  | false => exact Or.inr ⟨.link (realKeyPath m key), by simp [createKey, h1]⟩
  | true =>
    cases h2 : env.isWindows with
    | false => exact Or.inl (by simp [createKey, h1, h2])
    | true =>
      cases h3 : env.copyFails m key with
      | false => exact Or.inr ⟨.file, by simp [createKey, h1, h2, h3]⟩
      | true => exact Or.inl (by simp [createKey, h1, h2, h3])

theorem createKey_removals (env : KeysEnv) (m : String) (st : KState) (key : String) :
    (createKey env m st key).removedStale = st.removedStale ∧
    (createKey env m st key).removedBroken = st.removedBroken := by
  cases h1 : env.symlinkFails m key <;>
    cases h2 : env.isWindows <;>
      cases h3 : env.copyFails m key <;>
        simp [createKey, h1, h2, h3]

theorem createKey_nofail (env : KeysEnv) (m : String) (st : KState) (key : String)
    (h : env.symlinkFails m key = false) :
    createKey env m st key =
      { st with keysDir := st.keysDir ++ [(key, .link (realKeyPath m key))],
                claimed := st.claimed ++ [(key, m)],
                createdLinks := st.createdLinks ++ [(key, m)] } := by
  simp [createKey, h]

theorem not_mem_filterOut {β : Type} (l : List (String × β)) (k : String) :
    k ∉ (l.filter (fun p => !decide (p.1 = k))).map (fun e => e.1) := by
  intro hk
  obtain ⟨p, hp, hpk⟩ := List.mem_map.mp hk
  have h2 := (List.mem_filter.mp hp).2
  rw [hpk] at h2
  simp at h2

theorem nodup_append_singleton {β : Type} (l : List (String × β)) (k : String) (e : β)
    (hd : (l.map (fun p => p.1)).Nodup) (hk : k ∉ l.map (fun p => p.1)) :
    ((l ++ [(k, e)]).map (fun p => p.1)).Nodup := by
  rw [List.map_append, List.nodup_append]
  refine ⟨hd, by simp, ?_⟩
  intro x hx hx2
  simp only [List.map_cons, List.map_nil, List.mem_singleton] at hx2
  rw [hx2] at hx
  exact hk hx

theorem processKey_frame_inv (env : KeysEnv) (d0 : List (String × FsEntry))
    (P : List (String × String)) (st : KState) (m k : String)
    (h : KFrameInv env d0 P st) :
    KFrameInv env d0 (P ++ [(m, k)]) (processKey env m st k) := by
  obtain ⟨hD, hE, hG, hH⟩ := h
  have hPmap : ∀ k', k' ∉ (P ++ [(m, k)]).map (fun mk => mk.2) →
      k' ∉ P.map (fun mk => mk.2) ∧ k' ≠ k := by
    intro k' h'
    rw [List.map_append] at h'
    simp only [List.mem_append] at h'
    push_neg at h'
    exact ⟨h'.1, by simpa using h'.2⟩
  have hGup : ∀ ke ∈ st.removedStale, ∃ m', (m', ke.1) ∈ P ++ [(m, k)] ∧
      isCorrectLink env ke.2 (realKeyPath m' ke.1) = false :=
    fun ke hke => (hG ke hke).imp (fun m' hm' => ⟨List.mem_append_left _ hm'.1, hm'.2⟩)
  unfold processKey
  by_cases hdup : (alookup st.claimed k).isSome = true
  · rw [if_pos hdup]
    exact ⟨hD, fun k' h' => hE k' (hPmap k' h').1, hGup, hH⟩
  · rw [if_neg hdup]
    cases hlk : alookup st.keysDir k with
    | none =>
      refine ⟨?_, ?_, ?_, ?_⟩
      · rcases createKey_keysDir_shape env m st k with heq | ⟨e, heq⟩
        · rw [heq]; exact hD
        · rw [heq]
          exact nodup_append_singleton st.keysDir k e hD
            ((alookup_eq_none_iff_not_mem _ st.keysDir k).mp hlk)
      · intro k' h'
        obtain ⟨h1, h2⟩ := hPmap k' h'
        rcases createKey_keysDir_shape env m st k with heq | ⟨e, heq⟩
        · rw [heq]; exact hE k' h1
        · rw [heq, alookup_append_other _ _ _ _ _ h2]
          exact hE k' h1
      · have hr := (createKey_removals env m st k).1
        rw [hr]
        exact hGup
      · have hr := (createKey_removals env m st k).2
        rw [hr]
        exact hH
    | some e =>
      show KFrameInv env d0 (P ++ [(m, k)])
        (if isCorrectLink env e (realKeyPath m k) then
          { st with claimed := st.claimed ++ [(k, m)],
                    acceptedLinks := st.acceptedLinks ++ [(k, m)] }
        else
          createKey env m
            { st with keysDir := st.keysDir.filter (fun p => !decide (p.1 = k)),
                      removedStale := st.removedStale ++ [(k, e)] } k)
      by_cases hcorrect : isCorrectLink env e (realKeyPath m k) = true
      · rw [if_pos hcorrect]
        exact ⟨hD, fun k' h' => hE k' (hPmap k' h').1, hGup, hH⟩
      · rw [if_neg hcorrect]
        have hD2 : ((st.keysDir.filter (fun p => !decide (p.1 = k))).map
            (fun e => e.1)).Nodup :=
          List.Nodup.sublist ((List.filter_sublist _).map _) hD
        have hlk2 : ∀ k', k' ≠ k →
            alookup (st.keysDir.filter (fun p => !decide (p.1 = k))) k' =
              alookup st.keysDir k' := by
          intro k' hk
          rw [alookup_filter_out, if_neg hk]
        refine ⟨?_, ?_, ?_, ?_⟩
        · rcases createKey_keysDir_shape env m
            { st with keysDir := st.keysDir.filter (fun p => !decide (p.1 = k)),
                      removedStale := st.removedStale ++ [(k, e)] } k with heq | ⟨e', heq⟩
          · rw [heq]; exact hD2
          · rw [heq]
            exact nodup_append_singleton _ k e' hD2 (not_mem_filterOut st.keysDir k)
        · intro k' h'
          obtain ⟨h1, h2⟩ := hPmap k' h'
          rcases createKey_keysDir_shape env m
            { st with keysDir := st.keysDir.filter (fun p => !decide (p.1 = k)),
                      removedStale := st.removedStale ++ [(k, e)] } k with heq | ⟨e', heq⟩
          · rw [heq]
            show alookup (st.keysDir.filter (fun p => !decide (p.1 = k))) k' = _
            rw [hlk2 k' h2]
            exact hE k' h1
          · rw [heq]
            show alookup (st.keysDir.filter (fun p => !decide (p.1 = k)) ++ [(k, e')]) k' = _
            rw [alookup_append_other _ _ _ _ _ h2, hlk2 k' h2]
            exact hE k' h1
        · have hr := (createKey_removals env m
            { st with keysDir := st.keysDir.filter (fun p => !decide (p.1 = k)),
                      removedStale := st.removedStale ++ [(k, e)] } k).1
          rw [hr]
          show ∀ ke ∈ st.removedStale ++ [(k, e)], _
          intro ke hke
          rcases List.mem_append.mp hke with hold | hnew
          · exact hGup ke hold
          · have hke2 : ke = (k, e) := by simpa using hnew
            subst hke2
            exact ⟨m, List.mem_append_right _ (by simp), by simpa using hcorrect⟩
        · have hr := (createKey_removals env m
            { st with keysDir := st.keysDir.filter (fun p => !decide (p.1 = k)),
                      removedStale := st.removedStale ++ [(k, e)] } k).2
          rw [hr]
          exact hH

theorem foldl_processKey_frame_inv (env : KeysEnv) (d0 : List (String × FsEntry)) :
    ∀ (Q P : List (String × String)) (st : KState),
      KFrameInv env d0 P st →
      KFrameInv env d0 (P ++ Q) (Q.foldl (fun st mk => processKey env mk.1 st mk.2) st) := by
  intro Q
  induction Q with
  | nil => intro P st h; simpa using h
  | cons mk t ih =>
    intro P st h
    rw [List.foldl_cons]
    have h1 := processKey_frame_inv env d0 P st mk.1 mk.2 h
    have h2 := ih (P ++ [(mk.1, mk.2)]) _ h1
    rw [List.append_assoc, List.singleton_append] at h2
    simpa using h2

theorem initKState_frame_inv (env : KeysEnv) (d0 : List (String × FsEntry))
    (hd0 : (d0.map (fun e => e.1)).Nodup) :
    KFrameInv env d0 [] (initKState env d0) :=
  ⟨List.Nodup.sublist ((List.filter_sublist _).map _) hd0,
   fun _ _ => rfl, fun ke hke => absurd hke (by simp [initKState]), rfl⟩

/-- C3.  The Key Reconciler's deletions in the trust-key directory are
confined to the registered key filenames: the phase-1 removals are exactly
the pre-existing dangling links (and nothing else); every by-name removal is
of an entry whose filename is contributed by a currently-registered package
and which was not already the correct link for a contributing package; and
every entry whose filename is NOT among the registered key filenames is left
exactly as phase 1 left it (untouched unless it was a dangling link).  This
holds for every combination of link-creation outcomes (`symlinkFails`,
`copyFails` arbitrary). -/
theorem C3_key_frame (env : KeysEnv) (d0 : List (String × FsEntry))
    (hd0 : (d0.map (fun e => e.1)).Nodup) :
    ((copy_keys env d0).removedBroken = d0.filter (isDangling env) ∧
     ∀ e ∈ (copy_keys env d0).removedBroken,
       ∃ t, e.2 = FsEntry.link t ∧ pathExists env t = false) ∧
    (∀ ke ∈ (copy_keys env d0).removedStale,
      ke.1 ∈ (contributions env).map (fun mk => mk.2) ∧
      ∃ m, (m, ke.1) ∈ contributions env ∧
        isCorrectLink env ke.2 (realKeyPath m ke.1) = false) ∧
    (∀ k, k ∉ (contributions env).map (fun mk => mk.2) →
      alookup (copy_keys env d0).keysDir k =
        alookup (d0.filter (fun e => !isDangling env e)) k) := by
  have hinv := foldl_processKey_frame_inv env d0 (contributions env) [] (initKState env d0)
    (initKState_frame_inv env d0 hd0)
  rw [← copy_keys_eq_foldl] at hinv
  rw [List.nil_append] at hinv
  obtain ⟨hD, hE, hG, hH⟩ := hinv
  refine ⟨⟨hH, ?_⟩, ?_, ?_⟩
  · intro e he
    rw [hH] at he
    have hd := (List.mem_filter.mp he).2
    have hd' : (match e.2 with
        | FsEntry.link t => !pathExists env t
        | FsEntry.file => false) = true := hd
    cases he2 : e.2 with
    | link t =>
      rw [he2] at hd'
      exact ⟨t, rfl, by simpa using hd'⟩
    | file => rw [he2] at hd'; cases hd'
  · intro ke hke
    obtain ⟨m, hm1, hm3⟩ := hG ke hke
    exact ⟨List.mem_map.mpr ⟨(m, ke.1), hm1, rfl⟩, m, hm1, hm3⟩
  · intro k hk
    exact hE k hk

/-- C3, witness: a trust directory holding a dangling link (`dead`), a stale
plain file at a registered filename (`shared`), and an unregistered correct
link (`keep`); only the first two are removed, `keep` survives untouched. -/
theorem C3_key_frame_witness :
    (copy_keys ⟨["@a", "@b"], [("@a", ["k1", "shared"]), ("@b", ["shared"])], ["old"],
        false, fun _ _ => false, fun _ _ => false⟩
        [("dead", FsEntry.link "gone"), ("shared", FsEntry.file),
         ("keep", FsEntry.link "old")]).removedBroken =
      [("dead", FsEntry.link "gone")] ∧
    alookup (copy_keys ⟨["@a", "@b"], [("@a", ["k1", "shared"]), ("@b", ["shared"])], ["old"],
        false, fun _ _ => false, fun _ _ => false⟩
        [("dead", FsEntry.link "gone"), ("shared", FsEntry.file),
         ("keep", FsEntry.link "old")]).keysDir "keep" = some (FsEntry.link "old") := by
  have h := C3_key_frame
    ⟨["@a", "@b"], [("@a", ["k1", "shared"]), ("@b", ["shared"])], ["old"],
      false, fun _ _ => false, fun _ _ => false⟩
    [("dead", FsEntry.link "gone"), ("shared", FsEntry.file),
     ("keep", FsEntry.link "old")] (by decide)
  constructor
  · rw [h.1.1]
    decide
  · rw [h.2.2 "keep" (by decide)]
    decide

theorem processKey_inv (env : KeysEnv) (d0 : List (String × FsEntry))
    (P : List (String × String)) (st : KState) (m k : String)
    (hnf1 : env.symlinkFails m k = false)
    (h : KInv env d0 P st) : KInv env d0 (P ++ [(m, k)]) (processKey env m st k) := by
  obtain ⟨hA, hB, hC, hD, hE, hF, hG, hH⟩ := h
  have hcb := claimedBy_append_single P m k
  unfold processKey
  by_cases hdup : (alookup st.claimed k).isSome = true
  · rw [if_pos hdup]
    obtain ⟨m0, hm0⟩ := Option.isSome_iff_exists.mp hdup
    have hcl : claimedBy P k = some m0 := by rw [← hA]; exact hm0
    have hsame : ∀ k', claimedBy (P ++ [(m, k)]) k' = claimedBy P k' := by
      intro k'
      rw [hcb k']
      by_cases hk : k = k'
      · subst hk; rw [hcl]; rfl
      · simp [hk, optOr_none_right]
    have hpos : 0 < (P.filter (fun mk => decide (mk.2 = k))).length := by
      obtain ⟨mk, hmk, _, hk2⟩ := claimedBy_mem hcl
      exact List.length_pos_of_mem (List.mem_filter.mpr ⟨hmk, by simp [hk2]⟩)
    refine ⟨fun k' => by rw [hsame k']; exact hA k',
      fun k' => by rw [hsame k']; exact hB k', ?_, hD,
      fun k' h' => hE k' (by rw [← hsame k']; exact h'),
      fun k' m' h' => hF k' m' (by rw [← hsame k']; exact h'),
      fun ke hke => ?_, hH⟩
    · intro k'
      rw [hsame k', List.filter_append, List.filter_append, List.length_append,
        List.length_append, filter_fst_singleton, filter_snd_singleton]
      have h1 := hC k'
      by_cases hk : k = k'
      · subst hk
        rw [if_pos rfl, if_pos rfl, hcl] at *
        simp only [Option.isSome_some, if_pos, List.length_cons,
          List.length_nil] at h1 ⊢
        omega
      · rw [if_neg hk, if_neg hk]
        simpa using h1
    · obtain ⟨m', hm1, hm2, hm3⟩ := hG ke hke
      exact ⟨m', List.mem_append_left _ hm1, by rw [hsame]; exact hm2, hm3⟩
  · rw [if_neg hdup]
    have hclnone : claimedBy P k = none := by
      rw [← hA]
      exact Option.not_isSome_iff_eq_none.mp hdup
    have hck : claimedBy (P ++ [(m, k)]) k = some m := by
      rw [hcb k, hclnone]
      simp [optOr]
    have hother : ∀ k', k ≠ k' → claimedBy (P ++ [(m, k)]) k' = claimedBy P k' := by
      intro k' hk
      rw [hcb k']
      simp [hk, optOr_none_right]
    have hkeep : ∀ k' m', claimedBy P k' = some m' →
        claimedBy (P ++ [(m, k)]) k' = some m' := by
      intro k' m' hs
      rw [hcb k', hs]
      rfl
    have hA' : ∀ k', alookup (st.claimed ++ [(k, m)]) k' =
        claimedBy (P ++ [(m, k)]) k' := by
      intro k'
      by_cases hk : k = k'
      · subst hk
        rw [alookup_append_single _ _ _ _ (by rw [hA]; exact hclnone), hck]
      · rw [alookup_append_other _ _ _ _ _ (fun he => hk he.symm), hA k',
          hother k' hk]
    have hC' : ∀ k', ((st.duplicateLogs).filter (fun e => decide (e.1 = k'))).length =
        ((P ++ [(m, k)]).filter (fun mk => decide (mk.2 = k'))).length -
          (if (claimedBy (P ++ [(m, k)]) k').isSome then 1 else 0) := by
      intro k'
      rw [List.filter_append, List.length_append, filter_snd_singleton]
      have h1 := hC k'
      by_cases hk : k = k'
      · subst hk
        rw [if_pos rfl, hck]
        rw [hclnone] at h1
        simp at h1 ⊢
        omega
      · rw [if_neg hk, hother k' hk]
        simpa using h1
    have hBempty :
        (st.createdLinks).filter (fun e => decide (e.1 = k)) = [] ∧
        (st.acceptedLinks).filter (fun e => decide (e.1 = k)) = [] := by
      have h1 := hB k
      rw [hclnone, List.filter_append] at h1
      exact List.append_eq_nil.mp h1
    have hBother : ∀ k', ¬(k = k') →
        ((st.createdLinks).filter (fun e => decide (e.1 = k')) ++
          (st.acceptedLinks).filter (fun e => decide (e.1 = k'))) =
        (match claimedBy (P ++ [(m, k)]) k' with
         | none => []
         | some m' => [(k', m')]) := by
      intro k' hk
      rw [hother k' hk]
      have h1 := hB k'
      rw [List.filter_append] at h1
      exact h1
    cases hlk : alookup st.keysDir k with
    | none =>
      rw [createKey_nofail env m st k hnf1]
      refine ⟨hA', ?_, hC', ?_, ?_, ?_, ?_, hH⟩
      · intro k'
        rw [List.filter_append, List.filter_append, filter_fst_singleton]
        by_cases hk : k = k'
        · subst hk
          rw [if_pos rfl, hBempty.1, hBempty.2, hck]
          rfl
        · rw [if_neg hk, List.append_nil]
          exact hBother k' hk
      · exact nodup_append_singleton st.keysDir k _ hD
          ((alookup_eq_none_iff_not_mem _ st.keysDir k).mp hlk)
      · intro k' hn
        have hk : k ≠ k' := fun heq => by rw [← heq, hck] at hn; cases hn
        rw [alookup_append_other _ _ _ _ _ (fun heq => hk heq.symm)]
        exact hE k' (by rw [← hother k' hk]; exact hn)
      · intro k' m' hs
        by_cases hk : k = k'
        · subst hk
          rw [hck] at hs
          injection hs with hm
          subst hm
          exact alookup_append_single _ _ _ _ hlk
        · rw [alookup_append_other _ _ _ _ _ (fun heq => hk heq.symm)]
          exact hF k' m' (by rw [← hother k' hk]; exact hs)
      · intro ke hke
        obtain ⟨m', hm1, hm2, hm3⟩ := hG ke hke
        exact ⟨m', List.mem_append_left _ hm1, hkeep ke.1 m' hm2, hm3⟩
    | some e =>
      show KInv env d0 (P ++ [(m, k)])
        (if isCorrectLink env e (realKeyPath m k) then
          { st with claimed := st.claimed ++ [(k, m)],
                    acceptedLinks := st.acceptedLinks ++ [(k, m)] }
        else
          createKey env m
            { st with keysDir := st.keysDir.filter (fun p => !decide (p.1 = k)),
                      removedStale := st.removedStale ++ [(k, e)] } k)
      by_cases hcorrect : isCorrectLink env e (realKeyPath m k) = true
      · rw [if_pos hcorrect]
        have hee : e = FsEntry.link (realKeyPath m k) := isCorrectLink_link hcorrect
        refine ⟨hA', ?_, hC', hD, ?_, ?_, ?_, hH⟩
        · intro k'
          rw [List.filter_append, List.filter_append, filter_fst_singleton]
          by_cases hk : k = k'
          · subst hk
            rw [if_pos rfl, hBempty.1, hBempty.2, hck]
            rfl
          · rw [if_neg hk, List.append_nil]
            exact hBother k' hk
        · intro k' hn
          have hk : k ≠ k' := fun heq => by rw [← heq, hck] at hn; cases hn
          exact hE k' (by rw [← hother k' hk]; exact hn)
        · intro k' m' hs
          by_cases hk : k = k'
          · subst hk
            rw [hck] at hs
            injection hs with hm
            subst hm
            rw [hlk, hee]
          · exact hF k' m' (by rw [← hother k' hk]; exact hs)
        · intro ke hke
          obtain ⟨m', hm1, hm2, hm3⟩ := hG ke hke
          exact ⟨m', List.mem_append_left _ hm1, hkeep ke.1 m' hm2, hm3⟩
      · rw [if_neg hcorrect, createKey_nofail env m _ k hnf1]
        show KInv env d0 (P ++ [(m, k)])
          { st with
              keysDir := st.keysDir.filter (fun p => !decide (p.1 = k)) ++
                [(k, FsEntry.link (realKeyPath m k))],
              removedStale := st.removedStale ++ [(k, e)],
              claimed := st.claimed ++ [(k, m)],
              createdLinks := st.createdLinks ++ [(k, m)] }
        refine ⟨hA', ?_, hC', ?_, ?_, ?_, ?_, hH⟩
        · intro k'
          rw [List.filter_append, List.filter_append, filter_fst_singleton]
          by_cases hk : k = k'
          · subst hk
            rw [if_pos rfl, hBempty.1, hBempty.2, hck]
            rfl
          · rw [if_neg hk, List.append_nil]
            exact hBother k' hk
        · exact nodup_append_singleton _ k _
            (List.Nodup.sublist ((List.filter_sublist _).map _) hD)
            (not_mem_filterOut st.keysDir k)
        · intro k' hn
          have hk : k ≠ k' := fun heq => by rw [← heq, hck] at hn; cases hn
          rw [alookup_append_other _ _ _ _ _ (fun heq => hk heq.symm),
            alookup_filter_out, if_neg (fun heq => hk heq.symm)]
          exact hE k' (by rw [← hother k' hk]; exact hn)
        · intro k' m' hs
          by_cases hk : k = k'
          · subst hk
            rw [hck] at hs
            injection hs with hm
            subst hm
            refine alookup_append_single _ _ _ _ ?_
            rw [alookup_filter_out]
            simp
          · rw [alookup_append_other _ _ _ _ _ (fun heq => hk heq.symm),
              alookup_filter_out, if_neg (fun heq => hk heq.symm)]
            exact hF k' m' (by rw [← hother k' hk]; exact hs)
        · intro ke hke
          rcases List.mem_append.mp hke with hold | hnew
          · obtain ⟨m', hm1, hm2, hm3⟩ := hG ke hold
            exact ⟨m', List.mem_append_left _ hm1, hkeep ke.1 m' hm2, hm3⟩
          · have hke2 : ke = (k, e) := by simpa using hnew
            subst hke2
            refine ⟨m, List.mem_append_right _ (by simp), hck, ?_⟩
            simpa using hcorrect

theorem foldl_processKey_inv (env : KeysEnv) (d0 : List (String × FsEntry))
    (hnf : ∀ m k, env.symlinkFails m k = false) :
    ∀ (Q P : List (String × String)) (st : KState),
      KInv env d0 P st →
      KInv env d0 (P ++ Q) (Q.foldl (fun st mk => processKey env mk.1 st mk.2) st) := by
  intro Q
  induction Q with
  | nil => intro P st h; simpa using h
  | cons mk t ih =>
    intro P st h
    rw [List.foldl_cons]
    have h1 := processKey_inv env d0 P st mk.1 mk.2 (hnf mk.1 mk.2) h
    have h2 := ih (P ++ [(mk.1, mk.2)]) _ h1
    rw [List.append_assoc, List.singleton_append] at h2
    simpa using h2

theorem initKState_inv (env : KeysEnv) (d0 : List (String × FsEntry))
    (hd0 : (d0.map (fun e => e.1)).Nodup) :
    KInv env d0 [] (initKState env d0) := by
  refine ⟨fun k => rfl, fun k => rfl, fun k => by simp [claimedBy_nil, initKState],
    ?_, fun k _ => rfl, fun k m h => Option.noConfusion h,
    fun ke hke => absurd hke (by simp [initKState]), rfl⟩
  exact List.Nodup.sublist ((List.filter_sublist _).map _) hd0

/-- C6, counterexample.  The claim says the earlier package's key is the one
linked and every later claim is logged as a duplicate and not linked.  But
the creation attempt can fail (a3down.py 522-533): on Linux a failing
`symlink_to` is swallowed by the inner `except` and `existing_keys[key] =
mod_name` still runs, so `@a` claims `shared` with NOTHING linked while
`@b`'s claim is logged as a duplicate of a link that does not exist; on
Windows a failing `copy2` raises past the claim assignment to the outer
`except`, so `@a` never claims `shared` and `@b` later links it with no
duplicate log at all. -/
theorem C6_counterexample :
    (alookup (copy_keys ⟨["@a", "@b"], [("@a", ["shared"]), ("@b", ["shared"])], [],
        false, fun m _ => decide (m = "@a"), fun _ _ => false⟩ []).keysDir
      "shared" = none ∧
     (copy_keys ⟨["@a", "@b"], [("@a", ["shared"]), ("@b", ["shared"])], [],
        false, fun m _ => decide (m = "@a"), fun _ _ => false⟩ []).duplicateLogs =
      [("shared", "@b")]) ∧
    (alookup (copy_keys ⟨["@a", "@b"], [("@a", ["shared"]), ("@b", ["shared"])], [],
        true, fun m _ => decide (m = "@a"), fun m _ => decide (m = "@a")⟩ []).keysDir
      "shared" = some (FsEntry.link "@b/shared") ∧
     (copy_keys ⟨["@a", "@b"], [("@a", ["shared"]), ("@b", ["shared"])], [],
        true, fun m _ => decide (m = "@a"), fun m _ => decide (m = "@a")⟩ []).duplicateLogs =
      []) := by decide

/-- C6, amended.  Unconditionally, the Key Reconciler produces at most one
destination entry per key filename (the final trust directory has pairwise
distinct names).  Moreover, in the regime where every attempted key-link
creation succeeds (no `symlink_to` failure), the first-writer-wins discipline
holds exactly as the original claim states: each contributed filename has
exactly one claim event, owned by its FIRST contributor in registry
insertion order; the entry at a claimed filename is a link to that first
contributor's key file; and the duplicate-claim log entries for a filename
are exactly its later contributions. -/
theorem C6_amended_key_dedup (env : KeysEnv) (d0 : List (String × FsEntry))
    (hd0 : (d0.map (fun e => e.1)).Nodup) :
    (((copy_keys env d0).keysDir.map (fun e => e.1)).Nodup) ∧
    ((∀ m k, env.symlinkFails m k = false) →
      (∀ k, ((copy_keys env d0).createdLinks ++
          (copy_keys env d0).acceptedLinks).filter (fun e => decide (e.1 = k)) =
        (match claimedBy (contributions env) k with
         | none => []
         | some m => [(k, m)])) ∧
      (∀ k m, claimedBy (contributions env) k = some m →
        alookup (copy_keys env d0).keysDir k = some (FsEntry.link (realKeyPath m k))) ∧
      (∀ k, ((copy_keys env d0).duplicateLogs.filter
          (fun e => decide (e.1 = k))).length =
        ((contributions env).filter (fun mk => decide (mk.2 = k))).length -
          (if (claimedBy (contributions env) k).isSome then 1 else 0))) := by
  constructor
  · have hinv := foldl_processKey_frame_inv env d0 (contributions env) []
      (initKState env d0) (initKState_frame_inv env d0 hd0)
    rw [← copy_keys_eq_foldl] at hinv
    exact hinv.1
  · intro hnf
    have hinv := foldl_processKey_inv env d0 hnf (contributions env) []
      (initKState env d0) (initKState_inv env d0 hd0)
    rw [← copy_keys_eq_foldl] at hinv
    rw [List.nil_append] at hinv
    obtain ⟨hA, hB, hC, hD, hE, hF, hG, hH⟩ := hinv
    exact ⟨hB, hF, hC⟩

/-- C6, witness: with no creation failures, `@a` and `@b` both contribute
`shared`; `@a` (earlier in insertion order) wins the single claim and the
link, `@b`'s claim is logged as the one duplicate. -/
theorem C6_amended_key_dedup_witness :
    (((copy_keys ⟨["@a", "@b"], [("@a", ["k1", "shared"]), ("@b", ["shared"])], ["old"],
        false, fun _ _ => false, fun _ _ => false⟩
        [("keep", FsEntry.link "old")]).createdLinks ++
      (copy_keys ⟨["@a", "@b"], [("@a", ["k1", "shared"]), ("@b", ["shared"])], ["old"],
        false, fun _ _ => false, fun _ _ => false⟩
        [("keep", FsEntry.link "old")]).acceptedLinks).filter
        (fun e => decide (e.1 = "shared"))) = [("shared", "@a")] ∧
    alookup (copy_keys ⟨["@a", "@b"], [("@a", ["k1", "shared"]), ("@b", ["shared"])], ["old"],
        false, fun _ _ => false, fun _ _ => false⟩
        [("keep", FsEntry.link "old")]).keysDir "shared" =
      some (FsEntry.link "@a/shared") ∧
    ((copy_keys ⟨["@a", "@b"], [("@a", ["k1", "shared"]), ("@b", ["shared"])], ["old"],
        false, fun _ _ => false, fun _ _ => false⟩
        [("keep", FsEntry.link "old")]).duplicateLogs.filter
        (fun e => decide (e.1 = "shared"))).length = 1 := by
  have h := (C6_amended_key_dedup
    ⟨["@a", "@b"], [("@a", ["k1", "shared"]), ("@b", ["shared"])], ["old"],
      false, fun _ _ => false, fun _ _ => false⟩
    [("keep", FsEntry.link "old")] (by decide)).2 (fun _ _ => rfl)
  refine ⟨?_, ?_, ?_⟩
  · rw [h.1 "shared"]
    decide
  · exact h.2.1 "shared" "@a" (by decide)
  · rw [h.2.2 "shared"]
    decide
